import Mathlib

/-!
# go-cqhttp `server/http.go`: a shallow embedding

The file embeds the HTTP action server and the event pusher of
`src/server/http.go`:

* the Go `strings` helpers the server calls (`Contains`, `SplitN`, `ReplaceAll`),
* the part of `gin.Context` the server relies on (handler chain with `Next` and
  `Abort`, response writer, query / form / parameter access),
* the two middlewares installed by `httpServer.Run`, `HandleActions`, the
  dispatch table `httpApi`, `getParamWithType`, `SendMessage`,
* the header construction of `httpClient.onBotPushEvent`.

Go strings are modelled as Lean strings (sequences of characters).  The patterns
the server searches for (`" "`, `"_async"`, the content types) are ASCII, so on
valid UTF-8 the character-level search agrees with Go's byte-level search.

Library code that is not part of the repository is taken as a parameter
(`Gjson`: validation and parsing of a JSON body, `Crypto`: HMAC-SHA1) or
modelled from the library (gin's chain, gjson's `Result.Int`, `hex.EncodeToString`),
and the bot backend is recorded as a trace of the operations that were called.
-/

set_option autoImplicit false
set_option maxRecDepth 100000

/-! ## Go `strings` -/

namespace strings

/-- Position of the first occurrence of `sep` in `s` (`strings.Index`), `none` for Go's `-1`. -/
def indexChars (sep : List Char) : List Char → Option Nat
  | [] => if sep.isEmpty then some 0 else none
  | c :: s => if sep.isPrefixOf (c :: s) then some 0 else (indexChars sep s).map (· + 1)

/-- Go `strings.Contains(s, substr)`, which is `Index(s, substr) >= 0`. -/
def Contains (s substr : String) : Bool :=
  (indexChars substr.data s.data).isSome

/-- Go `strings.SplitN` for a non-empty separator and `n ≥ 0`: at most `n` pieces, the last
piece being the unsplit remainder. -/
def splitNChars (sep : List Char) : Nat → List Char → List (List Char)
  | 0, _ => []
  | 1, s => [s]
  | n + 2, s =>
    match indexChars sep s with
    | none => [s]
    | some m => s.take m :: splitNChars sep (n + 1) (s.drop (m + sep.length))

/-- Go `strings.SplitN(s, sep, n)` (non-empty `sep`, `n ≥ 0`). -/
def SplitN (s sep : String) (n : Nat) : List String :=
  (splitNChars sep.data n s.data).map String.mk

/-- The replacement loop of Go `strings.Replace(s, old, new, -1)` for a non-empty `old`:
scanning left to right, every occurrence of `old` that does not overlap an earlier one is
replaced by `new`.  The first argument bounds the number of steps; the length of the
input is always enough. -/
def replaceAllAux (old new : List Char) : Nat → List Char → List Char
  | 0, s => s
  | _ + 1, [] => []
  | fuel + 1, c :: s =>
    if old.isPrefixOf (c :: s) then
      new ++ replaceAllAux old new fuel (s.drop (old.length - 1))
    else
      c :: replaceAllAux old new fuel s

/-- Go `strings.ReplaceAll` on character lists (non-empty `old`). -/
def replaceAllChars (old new s : List Char) : List Char :=
  replaceAllAux old new s.length s

/-- Go `strings.ReplaceAll(s, old, new)`.  For an empty `old` Go inserts `new` before every
character and at the end. -/
def ReplaceAll (s old new : String) : String :=
  if old.data.isEmpty then
    String.mk (new.data ++ s.data.flatMap (fun c => c :: new.data))
  else
    String.mk (replaceAllChars old.data new.data s.data)

end strings

/-! ## gjson -/

/-- The kinds of a `gjson.Result` (`gjson.Type`). -/
inductive GjsonType
  | Null | False | Number | String | True | JSON
  deriving DecidableEq, Repr

/-- A `float64` as gjson stores it in `Result.Num`: a finite value, which is a rational
number, or an infinity (what `strconv.ParseFloat` gives for a literal beyond the range). -/
inductive Float64
  | finite (q : ℚ)
  | infinite
  deriving DecidableEq

/-- The fields of a `gjson.Result`: the kind, the raw JSON text, the value of a string and
the `float64` value of a number. -/
structure GjsonResult where
  Typ : GjsonType
  Raw : String
  Str : String
  Num : Float64

/-- Arithmetic on `int64` wraps around: the representative of `x` modulo `2^64` in the
range of `int64`. -/
def wrapInt64 (x : Int) : Int :=
  (x + 9223372036854775808) % 18446744073709551616 - 9223372036854775808

/-- Go `int64(f)` for a float in the range of `int64`: the fraction is discarded. -/
def truncRat (f : ℚ) : Int :=
  if 0 ≤ f then ⌊f⌋ else ⌈f⌉

/-- The `safeInt` of gjson: the conversion of a float between the least and the greatest
safe integer, `-(2^53 - 1)` and `2^53 - 1`. -/
def safeInt : Float64 → Option Int
  | Float64.finite f =>
    if f < -9007199254740991 ∨ f > 9007199254740991 then none else some (truncRat f)
  | Float64.infinite => none

/-- The digit loop of gjson `parseInt`: `n = n*10 + int64(s[i]-'0')` in `int64`, and no
result at a character that is not a digit. -/
def parseIntDigits : List Char → Int → Option Int
  | [], n => some n
  | c :: s, n =>
    if '0' ≤ c ∧ c ≤ '9' then
      parseIntDigits s (wrapInt64 (n * 10 + ((c.toNat : Int) - ('0'.toNat : Int))))
    else none

/-- The `parseInt` of gjson: an optional `-` and then digits only, read in `int64`. -/
def parseInt (s : String) : Option Int :=
  match s.data with
  | '-' :: ds =>
    if ds.isEmpty then none else (parseIntDigits ds 0).map (fun n => wrapInt64 (n * -1))
  | ds => if ds.isEmpty then none else parseIntDigits ds 0

/-- The integer that a text of decimal digits denotes, continuing from `n`. -/
def decimalValue : List Char → Int → Int
  | [], n => n
  | c :: s, n => decimalValue s (n * 10 + ((c.toNat : Int) - ('0'.toNat : Int)))

/-- Go `int64(f)` for any float.  Outside the range of `int64` the result depends on the
platform; this is the one of amd64. -/
def int64OfFloat : Float64 → Int
  | Float64.finite f =>
    if -9223372036854775808 ≤ f ∧ f < 9223372036854775808 then truncRat f
    else -9223372036854775808
  | Float64.infinite => -9223372036854775808

/-- Go `Result.Int` of gjson: for a number the float is converted when it is a safe
integer, else the raw text is read as an integer, else the float is converted anyway. -/
def GjsonResult.Int (t : GjsonResult) : Int :=
  match t.Typ with
  | GjsonType.True => 1
  | GjsonType.String => (parseInt t.Str).getD 0
  | GjsonType.Number =>
    match safeInt t.Num with
    | some i => i
    | none =>
      match parseInt t.Raw with
      | some i => i
      | none => int64OfFloat t.Num
  | _ => 0

/-- Go `Result.Exists`: the value was found in the document. -/
def GjsonResult.Exists (t : GjsonResult) : Bool :=
  t.Typ != GjsonType.Null || t.Raw.length != 0

/-- A parsed JSON document, as cached under `"json_body"`: its `Get` method. -/
structure JsonBody where
  Get : String → GjsonResult

/-- The two gjson entry points used by the normalization middleware. -/
structure Gjson where
  ValidBytes : String → Bool
  ParseBytes : String → JsonBody

/-! ## The bot backend and the response payloads -/

/-- The operations of `coolq.CQBot` that the action handlers call. -/
inductive BotOp
  | CQGetLoginInfo | CQGetFriendList | CQGetGroupList | CQGetGroupInfo
  | CQGetGroupMemberList | CQGetGroupMemberInfo | CQSendPrivateMessage
  | CQSendGroupMessage | CQSendGroupForwardMessage | CQGetImage | CQGetGroupMessage
  | CQGetGroupHonorInfo | CQProcessFriendRequest | CQProcessGroupRequest
  | CQSetGroupCard | CQSetGroupSpecialTitle | CQSetGroupKick | CQSetGroupBan
  | CQSetGroupWholeBan | CQSetGroupName | CQSetGroupAdmin | CQSetGroupMemo
  | CQSetGroupLeave | CQGetForwardMessage | CQDeleteMessage | CQCanSendImage
  | CQCanSendRecord | CQGetStatus | CQGetVersionInfo | CQReloadEventFilter
  | CQGetVipInfo | CQGetStrangerInfo | CQHandleQuickOperation | CQOcrImage
  | CQGetWordSlices | CQSetGroupPortrait
  deriving DecidableEq, Repr

/-- What a handler hands to `c.JSON`: the envelope `coolq.Failed(code)` or the result of a
bot operation. -/
inductive Payload
  | Failed (code : Nat)
  | bot (op : BotOp)
  deriving DecidableEq, Repr

/-- What happened while a request was served, in order: the auth middleware was entered,
`HandleActions` was entered (and consulted `global.RateLimit`), a bot operation was
called. -/
inductive Event
  | auth
  | HandleActions
  | bot (op : BotOp)
  deriving DecidableEq, Repr

/-! ## gin -/

/-- The parts of `http.Request` the server reads.  `Body = none` stands for a body that
cannot be read. -/
structure Request where
  Method : String
  Header : List (String × String)
  Query : List (String × String)
  PostForm : List (String × String)
  Body : Option String

/-- Go `Header.Get`: the first value of the header, `""` when it is absent. -/
def Request.HeaderGet (r : Request) (key : String) : String :=
  (r.Header.lookup key).getD ""

/-- The response writer of gin: status line (200 until set), whether the header went out,
and the payloads written. -/
structure ResponseWriter where
  status : Nat
  written : Bool
  body : List Payload
  deriving DecidableEq, Repr

/-- Go `responseWriter.WriteHeader`: the status that will be sent; it no longer changes
what is sent once the header has been written. -/
def ResponseWriter.WriteHeader (w : ResponseWriter) (code : Nat) : ResponseWriter :=
  if 0 < code ∧ w.status ≠ code ∧ w.written = false then { w with status := code } else w

/-- Go `responseWriter.WriteHeaderNow`. -/
def ResponseWriter.WriteHeaderNow (w : ResponseWriter) : ResponseWriter :=
  { w with written := true }

/-- The state of `gin.Context` for one request: the request, the route parameters, the
keys set by middlewares, the writer and the position in the handler chain, together with
the trace of events. -/
structure Context where
  Request : Request
  Params : List (String × String)
  Keys : List (String × JsonBody)
  Writer : ResponseWriter
  index : Int
  trace : List Event

/-- The index `gin` sets to stop a chain (`math.MaxInt8 / 2`). -/
def abortIndex : Int := 63

namespace Context

/-- Go `c.Param(key)`. -/
def Param (c : Context) (key : String) : String :=
  (c.Params.lookup key).getD ""

/-- Go `c.Query(key)`: the first value of the key in the URL query, `""` when absent. -/
def Query (c : Context) (key : String) : String :=
  (c.Request.Query.lookup key).getD ""

/-- Go `c.GetPostForm(key)`. -/
def GetPostForm (c : Context) (key : String) : Option String :=
  c.Request.PostForm.lookup key

/-- Go `c.Set(key, value)`. -/
def Set (c : Context) (key : String) (value : JsonBody) : Context :=
  { c with Keys := (key, value) :: c.Keys }

/-- Go `c.Get(key)`. -/
def Get (c : Context) (key : String) : Option JsonBody :=
  c.Keys.lookup key

/-- Go `c.Status(code)`. -/
def Status (c : Context) (code : Nat) : Context :=
  { c with Writer := c.Writer.WriteHeader code }

/-- Go `c.Abort()`. -/
def Abort (c : Context) : Context :=
  { c with index := abortIndex }

/-- Go `c.AbortWithStatus(code)`. -/
def AbortWithStatus (c : Context) (code : Nat) : Context :=
  let c := c.Status code
  Abort { c with Writer := c.Writer.WriteHeaderNow }

/-- Go `c.JSON(code, obj)`: set the status, send the header, write the payload. -/
def JSON (c : Context) (code : Nat) (obj : Payload) : Context :=
  let c := c.Status code
  { c with Writer := { c.Writer.WriteHeaderNow with body := c.Writer.body ++ [obj] } }

/-- Record an event in the trace. -/
def log (c : Context) (e : Event) : Context :=
  { c with trace := c.trace ++ [e] }

/-- A handler body `c.JSON(200, s.bot.Op(...))`: the bot operation is called and its result
is written.  The arguments of the operation are not recorded. -/
def callBot (c : Context) (op : BotOp) : Context :=
  (c.log (Event.bot op)).JSON 200 (Payload.bot op)

end Context

/-- How a request can fail to produce a response: a Go run-time panic (index out of
range), or the step bound of `nextLoop` was too small. -/
inductive Fault
  | indexOutOfRange
  | outOfFuel
  deriving DecidableEq, Repr

/-- A `gin.HandlerFunc`; the first argument is what `c.Next()` does when the handler calls
it. -/
abbrev HandlerFunc := (Context → Except Fault Context) → Context → Except Fault Context

/-- The loop of Go `c.Next()`: run the handlers from `c.index` on, each followed by
`c.index++`.  A handler that calls `c.Next()` runs the same loop one position further; a
handler that returns without calling `c.Abort()` is followed by the next one.  The index
is an `int8` in gin; it stays below 128 here (at most `abortIndex` plus the length of the
chain).  The first argument bounds the nesting; the length of the chain is enough. -/
def nextLoop (handlers : List HandlerFunc) : Nat → Context → Except Fault Context
  | fuel, c =>
    if c.index < handlers.length then
      match fuel with
      | 0 => Except.error Fault.outOfFuel
      | fuel + 1 =>
        match handlers.get? c.index.toNat with
        | none => Except.error Fault.indexOutOfRange
        | some h =>
          match h (fun c1 => nextLoop handlers fuel { c1 with index := c1.index + 1 }) c with
          | Except.error e => Except.error e
          | Except.ok c2 => nextLoop handlers fuel { c2 with index := c2.index + 1 }
    else
      Except.ok c

/-! ## `getParamWithType` -/

/-- Go `getParamWithType`. -/
def getParamWithType (c : Context) (k : String) : String × GjsonType :=
  if c.Query k != "" then
    (c.Query k, GjsonType.Null)
  else
    let h := c.Request.HeaderGet "Content-Type"
    let form : Option String :=
      if c.Request.Method == "POST" && h != "" &&
          strings.Contains h "application/x-www-form-urlencoded" then
        c.GetPostForm k
      else none
    match form with
    | some p => (p, GjsonType.Null)
    | none =>
      if c.Request.Method == "POST" && h != "" && strings.Contains h "application/json" then
        match c.Get "json_body" with
        | some obj =>
          let res := obj.Get k
          if res.Exists then
            match res.Typ with
            | GjsonType.JSON => (res.Raw, GjsonType.JSON)
            | GjsonType.String => (res.Str, GjsonType.String)
            | GjsonType.Number => (toString res.Int, GjsonType.Number)
            | GjsonType.True => ("true", GjsonType.True)
            | GjsonType.False => ("false", GjsonType.False)
            | GjsonType.Null => ("", GjsonType.Null)
          else ("", GjsonType.Null)
        | none => ("", GjsonType.Null)
      else ("", GjsonType.Null)

/-- Go `getParam`. -/
def getParam (c : Context) (k : String) : String :=
  (getParamWithType c k).1

/-- Go `getParamOrDefault`. -/
def getParamOrDefault (c : Context) (k default : String) : String :=
  if getParam c k != "" then getParam c k else default

/-! ## The action handlers -/

namespace httpServer

/-- Go `httpServer.GetLoginInfo`. -/
def GetLoginInfo (c : Context) : Context := c.callBot BotOp.CQGetLoginInfo

/-- Go `httpServer.GetFriendList`. -/
def GetFriendList (c : Context) : Context := c.callBot BotOp.CQGetFriendList

/-- Go `httpServer.GetGroupList`. -/
def GetGroupList (c : Context) : Context := c.callBot BotOp.CQGetGroupList

/-- Go `httpServer.GetGroupInfo`. -/
def GetGroupInfo (c : Context) : Context := c.callBot BotOp.CQGetGroupInfo

/-- Go `httpServer.GetGroupMemberList`. -/
def GetGroupMemberList (c : Context) : Context := c.callBot BotOp.CQGetGroupMemberList

/-- Go `httpServer.GetGroupMemberInfo`. -/
def GetGroupMemberInfo (c : Context) : Context := c.callBot BotOp.CQGetGroupMemberInfo

/-- Go `httpServer.SendPrivateMessage`: both branches (JSON message or plain message) call
`CQSendPrivateMessage`. -/
def SendPrivateMessage (c : Context) : Context :=
  if (getParamWithType c "message").2 = GjsonType.JSON then
    c.callBot BotOp.CQSendPrivateMessage
  else
    c.callBot BotOp.CQSendPrivateMessage

/-- Go `httpServer.SendGroupMessage`: both branches call `CQSendGroupMessage`. -/
def SendGroupMessage (c : Context) : Context :=
  if (getParamWithType c "message").2 = GjsonType.JSON then
    c.callBot BotOp.CQSendGroupMessage
  else
    c.callBot BotOp.CQSendGroupMessage

/-- Go `httpServer.SendMessage`. -/
def SendMessage (c : Context) : Context :=
  if getParam c "message_type" == "private" then SendPrivateMessage c
  else if getParam c "message_type" == "group" then SendGroupMessage c
  else if getParam c "group_id" != "" then SendGroupMessage c
  else if getParam c "user_id" != "" then SendPrivateMessage c
  else c

/-- Go `httpServer.SendGroupForwardMessage`. -/
def SendGroupForwardMessage (c : Context) : Context :=
  c.callBot BotOp.CQSendGroupForwardMessage

/-- Go `httpServer.GetImage`. -/
def GetImage (c : Context) : Context := c.callBot BotOp.CQGetImage

/-- Go `httpServer.GetGroupMessage`. -/
def GetGroupMessage (c : Context) : Context := c.callBot BotOp.CQGetGroupMessage

/-- Go `httpServer.GetGroupHonorInfo`. -/
def GetGroupHonorInfo (c : Context) : Context := c.callBot BotOp.CQGetGroupHonorInfo

/-- Go `httpServer.ProcessFriendRequest`. -/
def ProcessFriendRequest (c : Context) : Context := c.callBot BotOp.CQProcessFriendRequest

/-- Go `httpServer.ProcessGroupRequest`. -/
def ProcessGroupRequest (c : Context) : Context := c.callBot BotOp.CQProcessGroupRequest

/-- Go `httpServer.SetGroupCard`. -/
def SetGroupCard (c : Context) : Context := c.callBot BotOp.CQSetGroupCard

/-- Go `httpServer.SetSpecialTitle`. -/
def SetSpecialTitle (c : Context) : Context := c.callBot BotOp.CQSetGroupSpecialTitle

/-- Go `httpServer.SetGroupKick`. -/
def SetGroupKick (c : Context) : Context := c.callBot BotOp.CQSetGroupKick

/-- Go `httpServer.SetGroupBan`. -/
def SetGroupBan (c : Context) : Context := c.callBot BotOp.CQSetGroupBan

/-- Go `httpServer.SetWholeBan`. -/
def SetWholeBan (c : Context) : Context := c.callBot BotOp.CQSetGroupWholeBan

/-- Go `httpServer.SetGroupName`. -/
def SetGroupName (c : Context) : Context := c.callBot BotOp.CQSetGroupName

/-- Go `httpServer.SetGroupAdmin`. -/
def SetGroupAdmin (c : Context) : Context := c.callBot BotOp.CQSetGroupAdmin

/-- Go `httpServer.SendGroupNotice`. -/
def SendGroupNotice (c : Context) : Context := c.callBot BotOp.CQSetGroupMemo

/-- Go `httpServer.SetGroupLeave`. -/
def SetGroupLeave (c : Context) : Context := c.callBot BotOp.CQSetGroupLeave

/-- Go `httpServer.GetForwardMessage`. -/
def GetForwardMessage (c : Context) : Context := c.callBot BotOp.CQGetForwardMessage

/-- Go `httpServer.DeleteMessage`. -/
def DeleteMessage (c : Context) : Context := c.callBot BotOp.CQDeleteMessage

/-- Go `httpServer.CanSendImage`. -/
def CanSendImage (c : Context) : Context := c.callBot BotOp.CQCanSendImage

/-- Go `httpServer.CanSendRecord`. -/
def CanSendRecord (c : Context) : Context := c.callBot BotOp.CQCanSendRecord

/-- Go `httpServer.GetStatus`. -/
def GetStatus (c : Context) : Context := c.callBot BotOp.CQGetStatus

/-- Go `httpServer.GetVersionInfo`. -/
def GetVersionInfo (c : Context) : Context := c.callBot BotOp.CQGetVersionInfo

/-- Go `httpServer.ReloadEventFilter`. -/
def ReloadEventFilter (c : Context) : Context := c.callBot BotOp.CQReloadEventFilter

/-- Go `httpServer.GetVipInfo`. -/
def GetVipInfo (c : Context) : Context := c.callBot BotOp.CQGetVipInfo

/-- Go `httpServer.GetStrangerInfo`. -/
def GetStrangerInfo (c : Context) : Context := c.callBot BotOp.CQGetStrangerInfo

/-- Go `httpServer.HandleQuickOperation`. -/
def HandleQuickOperation (c : Context) : Context :=
  if c.Request.Method != "POST" then c.AbortWithStatus 404
  else
    match c.Get "json_body" with
    | some _ => c.callBot BotOp.CQHandleQuickOperation
    | none => c

/-- Go `httpServer.OcrImage`. -/
def OcrImage (c : Context) : Context := c.callBot BotOp.CQOcrImage

/-- Go `httpServer.GetWordSlices`. -/
def GetWordSlices (c : Context) : Context := c.callBot BotOp.CQGetWordSlices

/-- Go `httpServer.SetGroupPortrait`. -/
def SetGroupPortrait (c : Context) : Context := c.callBot BotOp.CQSetGroupPortrait

end httpServer

/-- The dispatch table `httpApi` of the source, in source order. -/
def httpApi : List (String × (Context → Context)) :=
  [ ("get_login_info", httpServer.GetLoginInfo),
    ("get_friend_list", httpServer.GetFriendList),
    ("get_group_list", httpServer.GetGroupList),
    ("get_group_info", httpServer.GetGroupInfo),
    ("get_group_member_list", httpServer.GetGroupMemberList),
    ("get_group_member_info", httpServer.GetGroupMemberInfo),
    ("send_msg", httpServer.SendMessage),
    ("send_group_msg", httpServer.SendGroupMessage),
    ("send_group_forward_msg", httpServer.SendGroupForwardMessage),
    ("send_private_msg", httpServer.SendPrivateMessage),
    ("delete_msg", httpServer.DeleteMessage),
    ("set_friend_add_request", httpServer.ProcessFriendRequest),
    ("set_group_add_request", httpServer.ProcessGroupRequest),
    ("set_group_card", httpServer.SetGroupCard),
    ("set_group_special_title", httpServer.SetSpecialTitle),
    ("set_group_kick", httpServer.SetGroupKick),
    ("set_group_ban", httpServer.SetGroupBan),
    ("set_group_whole_ban", httpServer.SetWholeBan),
    ("set_group_name", httpServer.SetGroupName),
    ("set_group_admin", httpServer.SetGroupAdmin),
    ("_send_group_notice", httpServer.SendGroupNotice),
    ("set_group_leave", httpServer.SetGroupLeave),
    ("get_image", httpServer.GetImage),
    ("get_forward_msg", httpServer.GetForwardMessage),
    ("get_group_msg", httpServer.GetGroupMessage),
    ("get_group_honor_info", httpServer.GetGroupHonorInfo),
    ("can_send_image", httpServer.CanSendImage),
    ("can_send_record", httpServer.CanSendRecord),
    ("get_status", httpServer.GetStatus),
    ("get_version_info", httpServer.GetVersionInfo),
    ("_get_vip_info", httpServer.GetVipInfo),
    ("get_stranger_info", httpServer.GetStrangerInfo),
    ("reload_event_filter", httpServer.ReloadEventFilter),
    ("set_group_portrait", httpServer.SetGroupPortrait),
    (".handle_quick_operation", httpServer.HandleQuickOperation),
    (".ocr_image", httpServer.OcrImage),
    (".get_word_slices", httpServer.GetWordSlices) ]

namespace httpServer

/-- The name `HandleActions` looks up for the route parameter `action`
(`strings.ReplaceAll(c.Param("action"), "_async", "")`). -/
def actionName (action : String) : String :=
  strings.ReplaceAll action "_async" ""

/-- Go `httpServer.HandleActions`.  The entry is recorded in the trace. -/
def HandleActions (c : Context) : Context :=
  let c := c.log Event.HandleActions
  let action := actionName (c.Param "action")
  match httpApi.lookup action with
  | some f => f c
  | none => c.JSON 200 (Payload.Failed 404)

/-- The first middleware installed by `httpServer.Run`: method and JSON body check. -/
def normalization (g : Gjson) : HandlerFunc := fun next c =>
  if c.Request.Method != "GET" && c.Request.Method != "POST" then
    Except.ok (c.Status 404)
  else if c.Request.Method == "POST" &&
      strings.Contains (c.Request.HeaderGet "Content-Type") "application/json" then
    match c.Request.Body with
    | none => Except.ok (c.Status 400)
    | some d =>
      if !g.ValidBytes d then Except.ok (c.Status 400)
      else next (c.Set "json_body" (g.ParseBytes d))
  else next c

/-- The second middleware installed by `httpServer.Run` when `authToken` is not empty.
`strings.SplitN(auth, " ", 2)[1]` panics when the split has one element.  The entry is
recorded in the trace. -/
def authMiddleware (authToken : String) : HandlerFunc := fun next c =>
  let c := c.log Event.auth
  let auth := c.Request.HeaderGet "Authorization"
  if auth != "" then
    match (strings.SplitN auth " " 2).get? 1 with
    | none => Except.error Fault.indexOutOfRange
    | some t =>
      if t != authToken then Except.ok (c.AbortWithStatus 401)
      else Except.ok c
  else if c.Query "access_token" != authToken then
    Except.ok (c.AbortWithStatus 401)
  else next c

/-- The handler chain `httpServer.Run` registers for the route `/:action`. -/
def handlers (g : Gjson) (authToken : String) : List HandlerFunc :=
  [normalization g] ++ (if authToken != "" then [authMiddleware authToken] else []) ++
    [fun _ c => Except.ok (HandleActions c)]

/-- The context gin hands to the chain for a request matching `/:action`. -/
def newContext (r : Request) (action : String) : Context :=
  { Request := r, Params := [("action", action)], Keys := [],
    Writer := { status := 200, written := false, body := [] },
    index := -1, trace := [] }

/-- The context when the chain starts: `c.Next()` begins with `c.index++`. -/
def startContext (r : Request) (action : String) : Context :=
  { (newContext r action) with index := (newContext r action).index + 1 }

/-- Serving one request on the route `/:action`: `c.Next()` on the fresh context, then
`WriteHeaderNow`. -/
def ServeHTTP (g : Gjson) (authToken : String) (r : Request) (action : String) :
    Except Fault Context :=
  match nextLoop (handlers g authToken) (handlers g authToken).length
      (startContext r action) with
  | Except.error e => Except.error e
  | Except.ok c1 => Except.ok { c1 with Writer := c1.Writer.WriteHeaderNow }

end httpServer

/-! ## The event pusher -/

/-- One lowercase hexadecimal digit. -/
def hexDigit (n : Nat) : Char :=
  "0123456789abcdef".data.getD n '0'

/-- Go `hex.EncodeToString` on a list of bytes. -/
def hexEncodeToString (bytes : List Nat) : String :=
  String.mk (bytes.flatMap (fun b => [hexDigit (b / 16 % 16), hexDigit (b % 16)]))

/-- The value of a lowercase hexadecimal digit. -/
def hexValue (c : Char) : Option Nat :=
  if '0' ≤ c ∧ c ≤ '9' then some (c.toNat - '0'.toNat)
  else if 'a' ≤ c ∧ c ≤ 'f' then some (c.toNat - 'a'.toNat + 10)
  else none

/-- Reading a lowercase hexadecimal text as bytes: two digits a byte, the high half
first. -/
def hexDecodeChars : List Char → Option (List Nat)
  | [] => some []
  | [_] => none
  | h :: l :: rest =>
    match hexValue h, hexValue l, hexDecodeChars rest with
    | some a, some b, some bs => some ((a * 16 + b) :: bs)
    | _, _, _ => none

/-- Reading a lowercase hexadecimal string as bytes. -/
def hexDecodeString (s : String) : Option (List Nat) :=
  hexDecodeChars s.data

/-- The library function the pusher signs with: `hmacSHA1 key message` is the digest
`hmac.New(sha1.New, key)` gives after `Write(message)`, as a list of bytes. -/
structure Crypto where
  hmacSHA1 : String → String → List Nat

/-- The fields of `httpClient` and the bot's `Client.Uin`. -/
structure httpClient where
  secret : String
  addr : String
  timeout : Int
  Uin : Int

/-- The request `onBotPushEvent` hands to gout. -/
structure PushRequest where
  url : String
  body : String
  header : List (String × String)
  timeout : Int
  attempt : Nat

/-- Go `httpClient.Run`: store the configuration, with a floor of 5 on the timeout. -/
def httpClient.Run (addr secret : String) (timeout Uin : Int) : httpClient :=
  { secret := secret, addr := addr, timeout := if timeout < 5 then 5 else timeout, Uin := Uin }

/-- Modelled from the spec: `coolq.MSG.ToJson` and the JSON encoder behind gout's
`SetJSON` are not in `src/`; the spec has one serialized event body, which is both sent and
signed.  An event is represented by that serialization. -/
structure MSG where
  ToJson : String

/-- The headers built by the function literal passed to `SetHeader` in
`onBotPushEvent`. -/
def httpClient.pushHeader (k : Crypto) (c : httpClient) (m : MSG) : List (String × String) :=
  let h := [("X-Self-ID", toString c.Uin), ("User-Agent", "CQHttp/4.15.0")]
  if c.secret != "" then
    h ++ [("X-Signature", "sha1=" ++ hexEncodeToString (k.hmacSHA1 c.secret m.ToJson))]
  else h

/-- The request built by `httpClient.onBotPushEvent`. -/
def httpClient.onBotPushEvent (k : Crypto) (c : httpClient) (m : MSG) : PushRequest :=
  { url := c.addr, body := m.ToJson, header := c.pushHeader k m,
    timeout := c.timeout, attempt := 5 }

/-! ## Auxiliary notions for the statements -/

/-- The characters of `"_async"`. -/
def strings.asyncChars : List Char := ['_', 'a', 's', 'y', 'n', 'c']

/-- A handler does not read the route parameters: it commutes with replacing them. -/
def ParamsFree (f : Context → Context) : Prop :=
  ∀ (c : Context) (p : List (String × String)),
    f { c with Params := p } = { f c with Params := p }

/-- A handler keeps the position in the chain or aborts the chain, and only adds events to
the trace. -/
def Framed (f : Context → Context) : Prop :=
  ∀ c : Context, ((f c).index = c.index ∨ (f c).index = abortIndex) ∧
    ∃ evs, (f c).trace = c.trace ++ evs

/-- What is observed of a served request: the response writer and the trace, or the
fault. -/
def outcome (x : Except Fault Context) : Except Fault (ResponseWriter × List Event) :=
  match x with
  | Except.error e => Except.error e
  | Except.ok c => Except.ok (c.Writer, c.trace)

/-- The lookup name in the words of the specification: the action with one trailing
`"_async"` removed when it ends in `"_async"`, the action itself otherwise. -/
def specActionName (a : String) : String :=
  if "_async".data.isSuffixOf a.data then String.mk (a.data.take (a.data.length - 6)) else a

/-- What the response of a request can be.  Either `HandleActions` did not run, or the
response is the one `HandleActions` produced from a context `c1` in which nothing had been
written. -/
def FromHandleActions (action : String) (c : Context) : Prop :=
  Event.HandleActions ∉ c.trace ∨
  ∃ c1 : Context, c.Writer = (httpServer.HandleActions c1).Writer ∧
    c.trace = (httpServer.HandleActions c1).trace ∧ c1.Writer.written = false ∧
    c1.Writer.body = [] ∧ c1.Param "action" = action ∧
    (c1.trace = [] ∨ c1.trace = [Event.auth])

/-! ## Concrete requests -/

/-- The parsed document of the body `{"group_id":123,"message":"hi"}`. -/
def sampleBody : JsonBody :=
  { Get := fun k =>
      if k = "group_id" then
        { Typ := GjsonType.Number, Raw := "123", Str := "", Num := Float64.finite 123 }
      else if k = "message" then
        { Typ := GjsonType.String, Raw := "\"hi\"", Str := "hi", Num := Float64.finite 0 }
      else
        { Typ := GjsonType.Null, Raw := "", Str := "", Num := Float64.finite 0 } }

/-- A gjson that accepts the body `{"group_id":123,"message":"hi"}` and nothing else. -/
def sampleGjson : Gjson :=
  { ValidBytes := fun d => d == "\x7b\"group_id\":123,\"message\":\"hi\"\x7d",
    ParseBytes := fun _ => sampleBody }

/-- The request `PUT /get_login_info`. -/
def putRequest : Request :=
  { Method := "PUT", Header := [], Query := [], PostForm := [], Body := some "" }

/-- The request `POST /get_login_info` with a JSON content type and the body `{`. -/
def badJsonRequest : Request :=
  { Method := "POST", Header := [("Content-Type", "application/json")], Query := [],
    PostForm := [], Body := some "\x7b" }

/-- A `GET` request with the header `Authorization: Bearer`. -/
def bearerOnlyRequest : Request :=
  { Method := "GET", Header := [("Authorization", "Bearer")], Query := [], PostForm := [],
    Body := some "" }

/-- A `GET` request with the header `Authorization: Bearer tok`. -/
def bearerRequest : Request :=
  { Method := "GET", Header := [("Authorization", "Bearer tok")], Query := [],
    PostForm := [], Body := some "" }

/-- A `GET` request with the query `?access_token=tok`. -/
def queryTokenRequest : Request :=
  { Method := "GET", Header := [], Query := [("access_token", "tok")],
    PostForm := [], Body := some "" }

/-- A plain `GET` request. -/
def getRequest : Request :=
  { Method := "GET", Header := [], Query := [], PostForm := [], Body := some "" }

/-- The request `POST /send_msg?group_id=42` with the JSON body
`{"group_id":123,"message":"hi"}`. -/
def sendMsgRequest : Request :=
  { Method := "POST", Header := [("Content-Type", "application/json")],
    Query := [("group_id", "42")], PostForm := [],
    Body := some "\x7b\"group_id\":123,\"message\":\"hi\"\x7d" }

/-- The context in which the handlers see `sendMsgRequest`: the body is cached. -/
def sendMsgContext : Context :=
  (httpServer.newContext sendMsgRequest "send_msg").Set "json_body" sampleBody

/-- The parsed document of the body
`{"message_type":"private","user_id":456,"group_id":123,"message":"hi"}`. -/
def privateBody : JsonBody :=
  { Get := fun k =>
      if k = "message_type" then
        { Typ := GjsonType.String, Raw := "\"private\"", Str := "private",
          Num := Float64.finite 0 }
      else if k = "user_id" then
        { Typ := GjsonType.Number, Raw := "456", Str := "", Num := Float64.finite 456 }
      else sampleBody.Get k }

/-- The context of `POST /send_msg` with the JSON body
`{"message_type":"private","user_id":456,"group_id":123,"message":"hi"}` and no query. -/
def privateMsgContext : Context :=
  (httpServer.newContext { sendMsgRequest with Query := [] } "send_msg").Set "json_body"
    privateBody

/-- The context of `POST /send_msg` with the JSON body `{"group_id":123,"message":"hi"}`
and no query. -/
def groupMsgContext : Context :=
  (httpServer.newContext { sendMsgRequest with Query := [] } "send_msg").Set "json_body"
    sampleBody

/-- The parsed document of the body `{"user_id":9223372036854775808}`: the value is
`2^63`, which a `float64` holds exactly. -/
def bigNumberBody : JsonBody :=
  { Get := fun k =>
      if k = "user_id" then
        { Typ := GjsonType.Number, Raw := "9223372036854775808", Str := "",
          Num := Float64.finite 9223372036854775808 }
      else
        { Typ := GjsonType.Null, Raw := "", Str := "", Num := Float64.finite 0 } }

/-- The context of `POST /get_stranger_info` with the JSON body
`{"user_id":9223372036854775808}` and no query. -/
def bigNumberContext : Context :=
  (httpServer.newContext
    { Method := "POST", Header := [("Content-Type", "application/json")], Query := [],
      PostForm := [], Body := some "\x7b\"user_id\":9223372036854775808\x7d" }
    "get_stranger_info").Set "json_body" bigNumberBody

/-- A stand-in for HMAC-SHA1 in examples: the bytes of the key followed by the bytes of
the message. -/
def sampleCrypto : Crypto :=
  { hmacSHA1 := fun key message => (key.data ++ message.data).map Char.toNat }

/-- A pusher with the secret `"s"`. -/
def signingClient : httpClient :=
  httpClient.Run "http://127.0.0.1:5701" "s" 0 10001

/-- A pusher without secret. -/
def plainClient : httpClient :=
  httpClient.Run "http://127.0.0.1:5701" "" 0 10001

/-- An event whose serialization is `{}`. -/
def sampleEvent : MSG :=
  { ToJson := "\x7b\x7d" }

/-! ## Lemmas on the string helpers -/

namespace strings

theorem replaceAllAux_fuel (old new : List Char) :
    ∀ (n m : Nat) (s : List Char), s.length ≤ n → s.length ≤ m →
      replaceAllAux old new n s = replaceAllAux old new m s := by
  intro n
  induction n with
  | zero =>
    intro m s hn _
    have hs : s = [] := List.length_eq_zero.mp (by omega)
    subst hs
    cases m <;> rfl
  | succ n ih =>
    intro m s hn hm
    cases s with
    | nil => cases m <;> rfl
    | cons c s =>
      cases m with
      | zero => simp at hm
      | succ m =>
        simp only [List.length_cons, Nat.add_le_add_iff_right] at hn hm
        simp only [replaceAllAux]
        split
        · rw [ih m (s.drop (old.length - 1)) (by simp only [List.length_drop]; omega)
            (by simp only [List.length_drop]; omega)]
        · rw [ih m s hn hm]

theorem replaceAllChars_nil (old new : List Char) : replaceAllChars old new [] = [] := rfl

theorem replaceAllChars_cons (old new : List Char) (c : Char) (s : List Char) :
    replaceAllChars old new (c :: s) =
      if old.isPrefixOf (c :: s) then new ++ replaceAllChars old new (s.drop (old.length - 1))
      else c :: replaceAllChars old new s := by
  unfold replaceAllChars
  simp only [List.length_cons, replaceAllAux]
  split
  · rw [replaceAllAux_fuel old new s.length (s.drop (old.length - 1)).length _
      (by simp only [List.length_drop]; omega) (le_refl _)]
  · rfl

theorem asyncChars_eq : "_async".data = asyncChars := rfl

/-- No occurrence of `"_async"` starts inside a non-empty `y` and runs into a following
`"_async"`: the pattern has a single `_`, at its start. -/
theorem async_no_overlap (y z : List Char) (hy : y ≠ [])
    (h : asyncChars.isPrefixOf (y ++ (asyncChars ++ z)) = true) :
    asyncChars.isPrefixOf y = true := by
  match y, hy with
  | [a], _ => simp [asyncChars, List.isPrefixOf] at h
  | [a, b], _ => simp [asyncChars, List.isPrefixOf] at h
  | [a, b, c], _ => simp [asyncChars, List.isPrefixOf] at h
  | [a, b, c, d], _ => simp [asyncChars, List.isPrefixOf] at h
  | [a, b, c, d, e], _ => simp [asyncChars, List.isPrefixOf] at h
  | a :: b :: c :: d :: e :: f :: t, _ =>
    simp only [asyncChars, List.cons_append, List.isPrefixOf, Bool.and_eq_true] at h ⊢
    exact h

theorem indexChars_cons_none (sep : List Char) (c : Char) (s : List Char)
    (h : indexChars sep (c :: s) = none) :
    sep.isPrefixOf (c :: s) = false ∧ indexChars sep s = none := by
  unfold indexChars at h
  by_cases hp : sep.isPrefixOf (c :: s) = true
  · rw [if_pos hp] at h
    cases h
  · rw [if_neg hp] at h
    exact ⟨Bool.eq_false_iff.mpr hp, by simpa using h⟩

theorem asyncChars_isPrefixOf_append (x y : List Char)
    (h : asyncChars.isPrefixOf x = true) : asyncChars.isPrefixOf (x ++ y) = true := by
  rw [List.isPrefixOf_iff_prefix] at h ⊢
  exact h.trans (List.prefix_append x y)

/-- Removing every `"_async"` from `x ++ "_async"` gives the same as removing it from `x`. -/
theorem replaceAllChars_append_async :
    ∀ (n : Nat) (x : List Char), x.length ≤ n →
      replaceAllChars asyncChars [] (x ++ asyncChars) = replaceAllChars asyncChars [] x
  | _, [], _ => by decide
  | 0, _ :: _, h => by simp at h
  | n + 1, c :: x, h => by
    rw [List.cons_append, replaceAllChars_cons, replaceAllChars_cons]
    by_cases hp : asyncChars.isPrefixOf (c :: x) = true
    · have hp2 : asyncChars.isPrefixOf (c :: (x ++ asyncChars)) = true :=
        asyncChars_isPrefixOf_append (c :: x) asyncChars hp
      have hl : 5 ≤ x.length := by
        have := (List.isPrefixOf_iff_prefix.mp hp).length_le
        simp only [asyncChars, List.length_cons, List.length_nil] at this
        omega
      have h5 : asyncChars.length - 1 = 5 := rfl
      rw [if_pos hp, if_pos hp2, h5, List.drop_append_of_le_length hl]
      have hd : (x.drop 5).length ≤ n := by
        simp only [List.length_drop]
        simp only [List.length_cons] at h
        omega
      rw [replaceAllChars_append_async n (x.drop 5) hd]
    · have hp2 : ¬ asyncChars.isPrefixOf (c :: (x ++ asyncChars)) = true := by
        intro h2
        apply hp
        apply async_no_overlap (c :: x) [] (by simp)
        simpa using h2
      rw [if_neg hp, if_neg hp2,
        replaceAllChars_append_async n x (by simp only [List.length_cons] at h; omega)]

/-- A text without `"_async"` is left as it is. -/
theorem replaceAllChars_of_index_none :
    ∀ x : List Char, indexChars asyncChars x = none → replaceAllChars asyncChars [] x = x
  | [], _ => rfl
  | c :: x, h => by
    obtain ⟨hp, hx⟩ := indexChars_cons_none asyncChars c x h
    rw [replaceAllChars_cons, hp]
    simp only [Bool.false_eq_true, if_false]
    rw [replaceAllChars_of_index_none x hx]

/-- The first `"_async"` of a text is removed and the scan goes on behind it. -/
theorem replaceAllChars_first_async (y : List Char) :
    ∀ x : List Char, indexChars asyncChars x = none →
      replaceAllChars asyncChars [] (x ++ (asyncChars ++ y)) =
        x ++ replaceAllChars asyncChars [] y
  | [], _ => by
    have h5 : asyncChars.length - 1 = 5 := rfl
    have hp : asyncChars.isPrefixOf ('_' :: (['a', 's', 'y', 'n', 'c'] ++ y)) = true := by
      simp [asyncChars, List.isPrefixOf]
    show replaceAllChars asyncChars [] ('_' :: (['a', 's', 'y', 'n', 'c'] ++ y)) = _
    rw [replaceAllChars_cons, if_pos hp, h5]
    rfl
  | c :: x, h => by
    obtain ⟨hp, hx⟩ := indexChars_cons_none asyncChars c x h
    have hp2 : ¬ asyncChars.isPrefixOf (c :: (x ++ (asyncChars ++ y))) = true := by
      intro h2
      have := async_no_overlap (c :: x) y (by simp) (by simpa using h2)
      rw [hp] at this
      cases this
    rw [List.cons_append, replaceAllChars_cons, if_neg hp2, replaceAllChars_first_async y x hx]
    rfl

end strings

theorem actionName_data (a : String) :
    (httpServer.actionName a).data = strings.replaceAllChars strings.asyncChars [] a.data := rfl

theorem actionName_eq (a : String) :
    httpServer.actionName a = String.mk (strings.replaceAllChars strings.asyncChars [] a.data) := rfl

/-! ## Handlers and the route parameters -/

theorem paramsFree_callBot (op : BotOp) : ParamsFree (fun c => c.callBot op) :=
  fun _ _ => rfl

theorem SendPrivateMessage_eq (c : Context) :
    httpServer.SendPrivateMessage c = c.callBot BotOp.CQSendPrivateMessage := by
  unfold httpServer.SendPrivateMessage
  exact ite_self _

theorem SendGroupMessage_eq (c : Context) :
    httpServer.SendGroupMessage c = c.callBot BotOp.CQSendGroupMessage := by
  unfold httpServer.SendGroupMessage
  exact ite_self _

theorem paramsFree_SendPrivateMessage : ParamsFree httpServer.SendPrivateMessage := by
  intro c p
  rw [SendPrivateMessage_eq, SendPrivateMessage_eq]
  rfl

theorem paramsFree_SendGroupMessage : ParamsFree httpServer.SendGroupMessage := by
  intro c p
  rw [SendGroupMessage_eq, SendGroupMessage_eq]
  rfl

theorem getParam_params (c : Context) (p : List (String × String)) (k : String) :
    getParam { c with Params := p } k = getParam c k := rfl

theorem paramsFree_SendMessage : ParamsFree httpServer.SendMessage := by
  intro c p
  unfold httpServer.SendMessage
  simp only [getParam_params]
  split
  · exact paramsFree_SendPrivateMessage c p
  · split
    · exact paramsFree_SendGroupMessage c p
    · split
      · exact paramsFree_SendGroupMessage c p
      · split
        · exact paramsFree_SendPrivateMessage c p
        · rfl

theorem paramsFree_HandleQuickOperation : ParamsFree httpServer.HandleQuickOperation := by
  intro c p
  unfold httpServer.HandleQuickOperation
  split
  · rfl
  · show (match c.Get "json_body" with
      | some _ => Context.callBot { c with Params := p } BotOp.CQHandleQuickOperation
      | none => { c with Params := p }) = _
    cases c.Get "json_body" <;> rfl

theorem paramsFree_httpApi : ∀ e ∈ httpApi, ParamsFree e.2 := by
  simp only [httpApi, List.forall_mem_cons, List.not_mem_nil, IsEmpty.forall_iff, implies_true,
    and_true]
  repeat' apply And.intro
  all_goals first
    | exact paramsFree_callBot _
    | exact paramsFree_SendMessage
    | exact paramsFree_SendPrivateMessage
    | exact paramsFree_SendGroupMessage
    | exact paramsFree_HandleQuickOperation

theorem lookup_mem {β : Type} (l : List (String × β)) (k : String) (v : β)
    (h : l.lookup k = some v) : (k, v) ∈ l := by
  induction l with
  | nil => simp at h
  | cons e l ih =>
    obtain ⟨k1, v1⟩ := e
    by_cases hk : k = k1
    · subst hk
      simp only [List.lookup_cons, beq_self_eq_true, Option.some.injEq] at h
      subst h
      exact List.mem_cons_self _ _
    · have hb : (k == k1) = false := by simpa using hk
      simp only [List.lookup_cons, hb] at h
      exact List.mem_cons_of_mem _ (ih h)


/-! ## Lemmas on the handler chain -/

theorem framed_callBot (op : BotOp) : Framed (fun c => c.callBot op) :=
  fun _ => ⟨Or.inl rfl, [Event.bot op], rfl⟩

theorem framed_SendPrivateMessage : Framed httpServer.SendPrivateMessage := by
  intro c
  rw [SendPrivateMessage_eq]
  exact framed_callBot _ c

theorem framed_SendGroupMessage : Framed httpServer.SendGroupMessage := by
  intro c
  rw [SendGroupMessage_eq]
  exact framed_callBot _ c

theorem framed_SendMessage : Framed httpServer.SendMessage := by
  intro c
  unfold httpServer.SendMessage
  split
  · exact framed_SendPrivateMessage c
  · split
    · exact framed_SendGroupMessage c
    · split
      · exact framed_SendGroupMessage c
      · split
        · exact framed_SendPrivateMessage c
        · exact ⟨Or.inl rfl, [], (List.append_nil _).symm⟩

theorem framed_HandleQuickOperation : Framed httpServer.HandleQuickOperation := by
  intro c
  unfold httpServer.HandleQuickOperation
  split
  · exact ⟨Or.inr rfl, [], (List.append_nil _).symm⟩
  · cases c.Get "json_body" with
    | none => exact ⟨Or.inl rfl, [], (List.append_nil _).symm⟩
    | some _ => exact framed_callBot _ c

theorem framed_httpApi : ∀ e ∈ httpApi, Framed e.2 := by
  simp only [httpApi, List.forall_mem_cons, List.not_mem_nil, IsEmpty.forall_iff, implies_true,
    and_true]
  repeat' apply And.intro
  all_goals first
    | exact framed_callBot _
    | exact framed_SendMessage
    | exact framed_SendPrivateMessage
    | exact framed_SendGroupMessage
    | exact framed_HandleQuickOperation

theorem HandleActions_frame (c : Context) :
    ((httpServer.HandleActions c).index = c.index ∨
      (httpServer.HandleActions c).index = abortIndex) ∧
    ∃ evs, (httpServer.HandleActions c).trace = c.trace ++ Event.HandleActions :: evs := by
  unfold httpServer.HandleActions
  simp only
  cases hf : httpApi.lookup (httpServer.actionName ((c.log Event.HandleActions).Param "action")) with
  | none => exact ⟨Or.inl rfl, [], rfl⟩
  | some f =>
    obtain ⟨hi, evs, ht⟩ := framed_httpApi _ (lookup_mem _ _ _ hf) (c.log Event.HandleActions)
    refine ⟨hi, evs, ?_⟩
    simp only at ht ⊢
    rw [ht]
    simp [Context.log]

theorem nextLoop_done (hs : List HandlerFunc) (fuel : Nat) (c : Context)
    (h : ¬ c.index < hs.length) : nextLoop hs fuel c = Except.ok c := by
  cases fuel <;> simp [nextLoop, h]

theorem nextLoop_step (hs : List HandlerFunc) (fuel : Nat) (c : Context) (f : HandlerFunc)
    (hlt : c.index < hs.length) (hf : hs.get? c.index.toNat = some f) :
    nextLoop hs (fuel + 1) c =
      match f (fun c1 => nextLoop hs fuel { c1 with index := c1.index + 1 }) c with
      | Except.error e => Except.error e
      | Except.ok c2 => nextLoop hs fuel { c2 with index := c2.index + 1 } := by
  rw [nextLoop]
  simp only [hlt, if_true, hf]

theorem handlers_of_token (g : Gjson) (T : String) (hT : T ≠ "") :
    httpServer.handlers g T =
      [httpServer.normalization g, httpServer.authMiddleware T,
        fun _ c => Except.ok (httpServer.HandleActions c)] := by
  simp [httpServer.handlers, hT]

/-- The last stage: `HandleActions` runs and the chain ends. -/
theorem chain_HandleActions (g : Gjson) (T : String) (hT : T ≠ "") (fuel : Nat) (c : Context)
    (hc : c.index = 2) :
    ∃ c2, nextLoop (httpServer.handlers g T) (fuel + 1) c = Except.ok c2 ∧ 3 ≤ c2.index ∧
      c2.Writer = (httpServer.HandleActions c).Writer ∧
      c2.trace = (httpServer.HandleActions c).trace := by
  rw [handlers_of_token g T hT]
  rw [nextLoop_step _ fuel c (fun _ c => Except.ok (httpServer.HandleActions c))
    (by rw [hc]; simp) (by rw [hc]; rfl)]
  simp only
  have hi := (HandleActions_frame c).1
  rw [hc] at hi
  have h3 : (3 : Int) ≤ (httpServer.HandleActions c).index + 1 := by
    rcases hi with h | h <;> rw [h] <;> decide
  refine ⟨_, nextLoop_done _ _ _ ?_, h3, rfl, rfl⟩
  simp only [List.length_cons, List.length_nil]
  omega

/-! ## Lemmas on the auth middleware -/

theorem indexChars_first_space (t : List Char) :
    ∀ p : List Char, ' ' ∉ p → strings.indexChars [' '] (p ++ ' ' :: t) = some p.length
  | [], _ => by simp [strings.indexChars, List.isPrefixOf]
  | a :: p, h => by
    have ha : ¬ (' ' = a) := fun e => h (e ▸ List.mem_cons_self _ _)
    have hp : ' ' ∉ p := fun e => h (List.mem_cons_of_mem _ e)
    simp [strings.indexChars, List.isPrefixOf, ha, indexChars_first_space t p hp]

theorem splitNChars_first_space (p t : List Char) (hp : ' ' ∉ p) :
    strings.splitNChars [' '] 2 (p ++ ' ' :: t) = [p, t] := by
  simp [strings.splitNChars, indexChars_first_space t p hp]

theorem SplitN_first_space (p t : String) (hp : ' ' ∉ p.data) :
    strings.SplitN (p ++ " " ++ t) " " 2 = [p, t] := by
  have hd : (p ++ " " ++ t).data = p.data ++ ' ' :: t.data := by
    simp [String.data_append]
  have hs : " ".data = [' '] := rfl
  unfold strings.SplitN
  rw [hd, hs, splitNChars_first_space p.data t.data hp]
  rfl

theorem exists_first_space (auth : String) (h : ' ' ∈ auth.data) :
    ∃ p t : String, ' ' ∉ p.data ∧ auth = p ++ " " ++ t := by
  obtain ⟨p, t, he, hp⟩ := List.eq_append_cons_of_mem h
  refine ⟨String.mk p, String.mk t, hp, ?_⟩
  apply String.ext
  simp [String.data_append, he]

/-- What the auth middleware decides, in the words of the claim: for a header that is
empty or has a space, the second element of the split is the text after the first
space. -/
theorem split_second_eq_iff (auth T : String) (hh : auth = "" ∨ ' ' ∈ auth.data) :
    (auth ≠ "" → ∃ t, (strings.SplitN auth " " 2).get? 1 = some t ∧
      (t = T ↔ ∃ p : String, ' ' ∉ p.data ∧ auth = p ++ " " ++ T)) := by
  intro hne
  have hsp : ' ' ∈ auth.data := hh.resolve_left hne
  obtain ⟨p, t, hp, he⟩ := exists_first_space auth hsp
  have hs := SplitN_first_space p t hp
  rw [← he] at hs
  refine ⟨t, by rw [hs]; rfl, ?_⟩
  constructor
  · intro ht
    exact ⟨p, hp, by rw [he, ht]⟩
  · rintro ⟨q, hq, heq⟩
    have hs2 := SplitN_first_space q T hq
    rw [← heq, hs] at hs2
    have h2 : p = q ∧ t = T := by simpa using hs2
    exact h2.2

theorem status_abort (c : Context) (hw : c.Writer.written = false) :
    (c.AbortWithStatus 401).Writer.status = 401 := by
  simp only [Context.AbortWithStatus, Context.Abort, Context.Status,
    ResponseWriter.WriteHeaderNow, ResponseWriter.WriteHeader, hw]
  split
  · rfl
  · rename_i h
    by_contra hx
    exact h ⟨by decide, hx, trivial⟩

theorem auth_query_ok (T : String) (next : Context → Except Fault Context) (c : Context)
    (h1 : c.Request.HeaderGet "Authorization" = "") (h2 : c.Query "access_token" = T) :
    httpServer.authMiddleware T next c = next (c.log Event.auth) := by
  have hb : (c.Request.HeaderGet "Authorization" != "") = false := by simp [h1]
  have hb2 : ((c.log Event.auth).Query "access_token" != T) = false := by
    show (c.Query "access_token" != T) = false
    simp [h2]
  have hr : (c.log Event.auth).Request = c.Request := rfl
  unfold httpServer.authMiddleware
  simp only [hr, hb, hb2, Bool.false_eq_true, if_false]

theorem auth_query_fail (T : String) (next : Context → Except Fault Context) (c : Context)
    (h1 : c.Request.HeaderGet "Authorization" = "") (h2 : c.Query "access_token" ≠ T) :
    httpServer.authMiddleware T next c = Except.ok ((c.log Event.auth).AbortWithStatus 401) := by
  have hb : (c.Request.HeaderGet "Authorization" != "") = false := by simp [h1]
  have hb2 : ((c.log Event.auth).Query "access_token" != T) = true := by
    show (c.Query "access_token" != T) = true
    simp [h2]
  have hr : (c.log Event.auth).Request = c.Request := rfl
  unfold httpServer.authMiddleware
  simp only [hr, hb, hb2, Bool.false_eq_true, if_false, if_true]

theorem auth_header_ok (T : String) (next : Context → Except Fault Context) (c : Context)
    (h1 : c.Request.HeaderGet "Authorization" ≠ "")
    (h2 : (strings.SplitN (c.Request.HeaderGet "Authorization") " " 2).get? 1 = some T) :
    httpServer.authMiddleware T next c = Except.ok (c.log Event.auth) := by
  have hb : (c.Request.HeaderGet "Authorization" != "") = true := by simp [h1]
  have hb2 : (T != T) = false := by simp
  have hr : (c.log Event.auth).Request = c.Request := rfl
  unfold httpServer.authMiddleware
  simp only [hr, hb, h2, hb2, Bool.false_eq_true, if_false, if_true]

theorem auth_header_fail (T t : String) (next : Context → Except Fault Context) (c : Context)
    (h1 : c.Request.HeaderGet "Authorization" ≠ "")
    (h2 : (strings.SplitN (c.Request.HeaderGet "Authorization") " " 2).get? 1 = some t)
    (h3 : t ≠ T) :
    httpServer.authMiddleware T next c = Except.ok ((c.log Event.auth).AbortWithStatus 401) := by
  have hb : (c.Request.HeaderGet "Authorization" != "") = true := by simp [h1]
  have hb2 : (t != T) = true := by simp [h3]
  have hr : (c.log Event.auth).Request = c.Request := rfl
  unfold httpServer.authMiddleware
  simp only [hr, hb, h2, hb2, if_true]

/-- The auth stage and what follows it. -/
theorem chain_auth (g : Gjson) (T : String) (hT : T ≠ "") (c : Context)
    (hc : c.index = 1) (htr : c.trace = []) (hw : c.Writer.written = false)
    (hh : c.Request.HeaderGet "Authorization" = "" ∨
      ' ' ∈ (c.Request.HeaderGet "Authorization").data) :
    ∃ c2, nextLoop (httpServer.handlers g T) 2 c = Except.ok c2 ∧ 3 ≤ c2.index ∧
      (Event.HandleActions ∈ c2.trace ↔
        ((c.Request.HeaderGet "Authorization" ≠ "" ∧
            ∃ p : String, ' ' ∉ p.data ∧ c.Request.HeaderGet "Authorization" = p ++ " " ++ T) ∨
          (c.Request.HeaderGet "Authorization" = "" ∧ c.Query "access_token" = T))) ∧
      (Event.HandleActions ∉ c2.trace →
        c2.Writer.status = 401 ∧ ∀ op, Event.bot op ∉ c2.trace) := by
  have hstep := nextLoop_step (httpServer.handlers g T) 1 c (httpServer.authMiddleware T)
    (by rw [handlers_of_token g T hT, hc]; simp) (by rw [handlers_of_token g T hT, hc]; rfl)
  rw [hstep]
  -- the two ways the chain ends
  have habort : ∀ c1 : Context, c1 = (c.log Event.auth).AbortWithStatus 401 →
      ∃ c2, nextLoop (httpServer.handlers g T) 1 { c1 with index := c1.index + 1 } =
          Except.ok c2 ∧ 3 ≤ c2.index ∧ Event.HandleActions ∉ c2.trace ∧
          c2.Writer.status = 401 ∧ ∀ op, Event.bot op ∉ c2.trace := by
    intro c1 h1
    refine ⟨_, nextLoop_done _ _ _ ?_, ?_, ?_, ?_, ?_⟩
    · rw [handlers_of_token g T hT, h1]
      simp [Context.AbortWithStatus, Context.Abort, abortIndex]
    · rw [h1]
      simp [Context.AbortWithStatus, Context.Abort, abortIndex]
    · rw [h1]
      simp [Context.AbortWithStatus, Context.Abort, Context.Status, Context.log, htr]
    · rw [h1]
      exact status_abort (c.log Event.auth) hw
    · rw [h1]
      simp [Context.AbortWithStatus, Context.Abort, Context.Status, Context.log, htr]
  have hgo : ∀ fuel : Nat, ∃ c2, nextLoop (httpServer.handlers g T) (fuel + 1)
        { (c.log Event.auth) with index := (c.log Event.auth).index + 1 } = Except.ok c2 ∧
        3 ≤ c2.index ∧ Event.HandleActions ∈ c2.trace := by
    intro fuel
    obtain ⟨c2, h2, hi, _, ht⟩ := chain_HandleActions g T hT fuel
      { (c.log Event.auth) with index := (c.log Event.auth).index + 1 }
      (by simp [Context.log, hc])
    refine ⟨c2, h2, hi, ?_⟩
    obtain ⟨evs, he⟩ := (HandleActions_frame
      { (c.log Event.auth) with index := (c.log Event.auth).index + 1 }).2
    rw [ht, he]
    simp
  by_cases hne : c.Request.HeaderGet "Authorization" = ""
  · -- no header: the query token decides
    by_cases hqt : c.Query "access_token" = T
    · rw [auth_query_ok T _ c hne hqt]
      obtain ⟨c2, h2, hi, hm⟩ := hgo 0
      simp only [] at h2 ⊢
      rw [h2]
      simp only
      refine ⟨_, nextLoop_done _ _ _ ?_, ?_, ?_, ?_⟩
      · rw [handlers_of_token g T hT]
        simp only [List.length_cons, List.length_nil]
        omega
      · simp only
        omega
      · simp only [hm, true_iff]
        exact Or.inr ⟨hne, hqt⟩
      · intro hn
        exact absurd hm hn
    · rw [auth_query_fail T _ c hne hqt]
      obtain ⟨c2, h2, hi, hm, hs, hbot⟩ := habort _ rfl
      refine ⟨c2, h2, hi, ?_, fun _ => ⟨hs, hbot⟩⟩
      simp only [hm, false_iff]
      rintro (⟨h1, _⟩ | ⟨_, h2⟩)
      · exact h1 hne
      · exact hqt h2
  · -- a header with a space: the text after the first space decides
    obtain ⟨t, hget, hiff⟩ := split_second_eq_iff _ T hh hne
    by_cases ht : t = T
    · rw [auth_header_ok T _ c hne (by rw [hget, ht])]
      obtain ⟨c2, h2, hi, hm⟩ := hgo 0
      refine ⟨c2, h2, hi, ?_, fun hn => absurd hm hn⟩
      simp only [hm, true_iff]
      exact Or.inl ⟨hne, hiff.mp ht⟩
    · rw [auth_header_fail T t _ c hne hget ht]
      obtain ⟨c2, h2, hi, hm, hs, hbot⟩ := habort _ rfl
      refine ⟨c2, h2, hi, ?_, fun _ => ⟨hs, hbot⟩⟩
      simp only [hm, false_iff]
      rintro (⟨_, h1⟩ | ⟨h2, _⟩)
      · exact ht (hiff.mpr h1)
      · exact hne h2

/-! ## The first middleware -/

theorem normalization_cases (g : Gjson) (next : Context → Except Fault Context) (c : Context) :
    httpServer.normalization g next c = Except.ok (c.Status 404) ∨
    httpServer.normalization g next c = Except.ok (c.Status 400) ∨
    httpServer.normalization g next c = next c ∨
    ∃ d, httpServer.normalization g next c = next (c.Set "json_body" d) := by
  unfold httpServer.normalization
  split
  · exact Or.inl rfl
  · split
    · cases c.Request.Body with
      | none => exact Or.inr (Or.inl rfl)
      | some d =>
        simp only
        split
        · exact Or.inr (Or.inl rfl)
        · exact Or.inr (Or.inr (Or.inr ⟨_, rfl⟩))
    · exact Or.inr (Or.inr (Or.inl rfl))

theorem written_Status (c : Context) (code : Nat) :
    (c.Status code).Writer.written = c.Writer.written := by
  simp only [Context.Status, ResponseWriter.WriteHeader]
  split <;> rfl

theorem body_Status (c : Context) (code : Nat) :
    (c.Status code).Writer.body = c.Writer.body := by
  simp only [Context.Status, ResponseWriter.WriteHeader]
  split <;> rfl

/-- An unknown action: `HandleActions`, entered before the header is written, answers 200
with `coolq.Failed(404)` and calls no handler. -/
theorem HandleActions_of_unknown (c : Context) (hw : c.Writer.written = false)
    (hk : httpApi.lookup (httpServer.actionName (c.Param "action")) = none) :
    (httpServer.HandleActions c).Writer =
      { status := 200, written := true, body := c.Writer.body ++ [Payload.Failed 404] } ∧
    (httpServer.HandleActions c).trace = c.trace ++ [Event.HandleActions] := by
  have hk2 : httpApi.lookup
      (httpServer.actionName ((c.log Event.HandleActions).Param "action")) = none := hk
  have hres : httpServer.HandleActions c =
      (c.log Event.HandleActions).JSON 200 (Payload.Failed 404) := by
    unfold httpServer.HandleActions
    simp only [hk2]
  have hwr : ((c.log Event.HandleActions).JSON 200 (Payload.Failed 404)).Writer =
      { status := 200, written := true, body := c.Writer.body ++ [Payload.Failed 404] } := by
    simp only [Context.JSON, Context.Status, Context.log, ResponseWriter.WriteHeader,
      ResponseWriter.WriteHeaderNow, hw]
    split
    · rfl
    · rename_i h
      have hs : c.Writer.status = 200 := by
        by_contra hx
        exact h ⟨by decide, hx, trivial⟩
      simp only [hs]
  rw [hres]
  exact ⟨hwr, rfl⟩

/-! ## The shape of every response -/

theorem nextLoop_step_ok (hs : List HandlerFunc) (fuel : Nat) (c c2 : Context)
    (f : HandlerFunc) (hlt : c.index < hs.length) (hf : hs.get? c.index.toNat = some f)
    (h : f (fun c1 => nextLoop hs fuel { c1 with index := c1.index + 1 }) c = Except.ok c2) :
    nextLoop hs (fuel + 1) c = nextLoop hs fuel { c2 with index := c2.index + 1 } := by
  rw [nextLoop_step hs fuel c f hlt hf, h]

theorem nextLoop_step_error (hs : List HandlerFunc) (fuel : Nat) (c : Context) (e : Fault)
    (f : HandlerFunc) (hlt : c.index < hs.length) (hf : hs.get? c.index.toNat = some f)
    (h : f (fun c1 => nextLoop hs fuel { c1 with index := c1.index + 1 }) c =
      Except.error e) :
    nextLoop hs (fuel + 1) c = Except.error e := by
  rw [nextLoop_step hs fuel c f hlt hf, h]

theorem ServeHTTP_ok (g : Gjson) (T : String) (r : Request) (action : String) (c1 : Context)
    (h : nextLoop (httpServer.handlers g T) (httpServer.handlers g T).length
      (httpServer.startContext r action) = Except.ok c1) :
    httpServer.ServeHTTP g T r action =
      Except.ok { c1 with Writer := c1.Writer.WriteHeaderNow } := by
  unfold httpServer.ServeHTTP
  rw [h]

theorem ServeHTTP_error (g : Gjson) (T : String) (r : Request) (action : String) (e : Fault)
    (h : nextLoop (httpServer.handlers g T) (httpServer.handlers g T).length
      (httpServer.startContext r action) = Except.error e) :
    httpServer.ServeHTTP g T r action = Except.error e := by
  unfold httpServer.ServeHTTP
  rw [h]

/-- The last handler of a chain is `HandleActions`: it runs and the chain ends. -/
theorem chain_last (hs : List HandlerFunc) (fuel : Nat) (c : Context) (i : Nat)
    (hi : i ≤ 62) (hc : c.index = i) (hlen : hs.length = i + 1)
    (hget : hs.get? i = some (fun _ c => Except.ok (httpServer.HandleActions c))) :
    nextLoop hs (fuel + 1) c =
      Except.ok { (httpServer.HandleActions c) with
        index := (httpServer.HandleActions c).index + 1 } := by
  have hlt : c.index < hs.length := by rw [hc, hlen]; omega
  have hf : hs.get? c.index.toNat =
      some (fun _ c => Except.ok (httpServer.HandleActions c)) := by
    rw [hc]
    exact hget
  rw [nextLoop_step_ok hs fuel c (httpServer.HandleActions c) _ hlt hf rfl]
  apply nextLoop_done
  have hidx := (HandleActions_frame c).1
  simp only [hlen, abortIndex, hc] at hidx ⊢
  rcases hidx with h | h <;> rw [h] <;> omega

theorem auth_cases (T : String) (next : Context → Except Fault Context) (c : Context) :
    httpServer.authMiddleware T next c = Except.error Fault.indexOutOfRange ∨
    httpServer.authMiddleware T next c = Except.ok ((c.log Event.auth).AbortWithStatus 401) ∨
    httpServer.authMiddleware T next c = Except.ok (c.log Event.auth) ∨
    httpServer.authMiddleware T next c = next (c.log Event.auth) := by
  unfold httpServer.authMiddleware
  simp only
  split
  · cases (strings.SplitN ((c.log Event.auth).Request.HeaderGet "Authorization") " " 2).get? 1 with
    | none => exact Or.inl rfl
    | some t =>
      simp only
      split
      · exact Or.inr (Or.inl rfl)
      · exact Or.inr (Or.inr (Or.inl rfl))
  · split
    · exact Or.inr (Or.inl rfl)
    · exact Or.inr (Or.inr (Or.inr rfl))

/-- The auth stage and what follows it, for any header. -/
theorem chain_auth_shape (g : Gjson) (T : String) (hT : T ≠ "") (action : String)
    (c : Context) (hc : c.index = 1) (htr : c.trace = []) (hw : c.Writer.written = false)
    (hb : c.Writer.body = []) (hp : c.Param "action" = action) :
    nextLoop (httpServer.handlers g T) 2 c = Except.error Fault.indexOutOfRange ∨
    ∃ c2, nextLoop (httpServer.handlers g T) 2 c = Except.ok c2 ∧ 3 ≤ c2.index ∧
      FromHandleActions action c2 := by
  have hlt : c.index < (httpServer.handlers g T).length := by
    rw [handlers_of_token g T hT, hc]
    simp
  have hf : (httpServer.handlers g T).get? c.index.toNat =
      some (httpServer.authMiddleware T) := by
    rw [handlers_of_token g T hT, hc]
    rfl
  -- the context in which `HandleActions` is entered
  obtain ⟨cA, hcA⟩ : ∃ cA : Context,
      cA = { (c.log Event.auth) with index := (c.log Event.auth).index + 1 } := ⟨_, rfl⟩
  have a1 : cA.index = 2 := by rw [hcA]; simp [Context.log, hc]
  have a2 : cA.trace = [Event.auth] := by rw [hcA]; simp [Context.log, htr]
  have a3 : cA.Writer.written = false := by rw [hcA]; exact hw
  have a4 : cA.Writer.body = [] := by rw [hcA]; exact hb
  have a5 : cA.Param "action" = action := by rw [hcA]; exact hp
  have hK : ∀ fuel : Nat,
      (fun c1 : Context => nextLoop (httpServer.handlers g T) fuel
        { c1 with index := c1.index + 1 }) (c.log Event.auth) =
      nextLoop (httpServer.handlers g T) fuel cA := by
    intro fuel
    rw [hcA]
  have hK2 : ∀ fuel : Nat,
      nextLoop (httpServer.handlers g T) fuel
        { (c.log Event.auth) with index := (c.log Event.auth).index + 1 } =
      nextLoop (httpServer.handlers g T) fuel cA := by
    intro fuel
    rw [hcA]
  have hlast : ∀ fuel : Nat, nextLoop (httpServer.handlers g T) (fuel + 1) cA =
      Except.ok { (httpServer.HandleActions cA) with
        index := (httpServer.HandleActions cA).index + 1 } := by
    intro fuel
    apply chain_last _ fuel _ 2 (by decide) a1
    · rw [handlers_of_token g T hT]
      rfl
    · rw [handlers_of_token g T hT]
      rfl
  have hfrom : FromHandleActions action { (httpServer.HandleActions cA) with
        index := (httpServer.HandleActions cA).index + 1 } :=
    Or.inr ⟨cA, rfl, rfl, a3, a4, a5, Or.inr a2⟩
  have h3 : (3 : Int) ≤ (httpServer.HandleActions cA).index + 1 := by
    have hidx := (HandleActions_frame cA).1
    rw [a1] at hidx
    rcases hidx with h | h <;> rw [h] <;> decide
  rcases auth_cases T
    (fun c1 => nextLoop (httpServer.handlers g T) 1 { c1 with index := c1.index + 1 }) c
    with h | h | h | h
  · exact Or.inl (nextLoop_step_error _ 1 c _ _ hlt hf h)
  · right
    rw [nextLoop_step_ok _ 1 c _ _ hlt hf h]
    refine ⟨_, nextLoop_done _ _ _ ?_, ?_, Or.inl ?_⟩
    · rw [handlers_of_token g T hT]
      simp [Context.AbortWithStatus, Context.Abort, abortIndex]
    · simp [Context.AbortWithStatus, Context.Abort, abortIndex]
    · simp [Context.AbortWithStatus, Context.Abort, Context.Status, Context.log, htr]
  · right
    rw [nextLoop_step_ok _ 1 c _ _ hlt hf h, hK2 1, hlast 0]
    exact ⟨_, rfl, h3, hfrom⟩
  · right
    rw [nextLoop_step_ok _ 1 c _ _ hlt hf ((h.trans (hK 1)).trans (hlast 0))]
    refine ⟨_, nextLoop_done _ _ _ ?_, ?_, hfrom⟩
    · rw [handlers_of_token g T hT]
      simp only [List.length_cons, List.length_nil]
      have := h3
      omega
    · simp only
      have := h3
      omega

/-- After the first middleware: the rest of the chain, from position 1. -/
theorem chain_rest_shape (g : Gjson) (T : String) (action : String)
    (c : Context) (hc : c.index = 1) (htr : c.trace = []) (hw : c.Writer.written = false)
    (hb : c.Writer.body = []) (hp : c.Param "action" = action) :
    nextLoop (httpServer.handlers g T) ((httpServer.handlers g T).length - 1) c =
      Except.error Fault.indexOutOfRange ∨
    ∃ c2, nextLoop (httpServer.handlers g T) ((httpServer.handlers g T).length - 1) c =
        Except.ok c2 ∧ ((httpServer.handlers g T).length : Int) ≤ c2.index ∧
      FromHandleActions action c2 := by
  by_cases hT : T = ""
  · subst hT
    have hh : httpServer.handlers g "" =
        [httpServer.normalization g, fun _ c => Except.ok (httpServer.HandleActions c)] := rfl
    right
    rw [hh]
    show ∃ c2, nextLoop _ (0 + 1) c = Except.ok c2 ∧ _
    rw [chain_last [httpServer.normalization g,
      fun _ c => Except.ok (httpServer.HandleActions c)] 0 c 1 (by decide) hc rfl rfl]
    refine ⟨_, rfl, ?_, Or.inr ⟨c, rfl, rfl, hw, hb, hp, Or.inl htr⟩⟩
    have hidx := (HandleActions_frame c).1
    rw [hc] at hidx
    show ((2 : Nat) : Int) ≤ (httpServer.HandleActions c).index + 1
    rcases hidx with h | h <;> rw [h] <;> decide
  · have hl : (httpServer.handlers g T).length = 3 := by
      rw [handlers_of_token g T hT]
      rfl
    rw [hl]
    exact chain_auth_shape g T hT action c hc htr hw hb hp

/-- Every request on the route is served or panics in the auth middleware, and every
response comes from `HandleActions` entered with nothing written, or from a chain in which
`HandleActions` did not run. -/
theorem ServeHTTP_shape (g : Gjson) (T : String) (r : Request) (action : String) :
    httpServer.ServeHTTP g T r action = Except.error Fault.indexOutOfRange ∨
    ∃ c, httpServer.ServeHTTP g T r action = Except.ok c ∧
      ∃ c2, c.Writer = c2.Writer.WriteHeaderNow ∧ c.trace = c2.trace ∧
        FromHandleActions action c2 := by
  have hpos : 1 ≤ (httpServer.handlers g T).length := by
    simp [httpServer.handlers]
  obtain ⟨n, hn⟩ : ∃ n, (httpServer.handlers g T).length = n + 1 :=
    ⟨(httpServer.handlers g T).length - 1, by omega⟩
  have hn2 : (httpServer.handlers g T).length - 1 = n := by omega
  have hlt : (httpServer.startContext r action).index < (httpServer.handlers g T).length := by
    show ((-1 : Int) + 1) < _
    omega
  have hf : (httpServer.handlers g T).get? (httpServer.startContext r action).index.toNat =
      some (httpServer.normalization g) := rfl
  have hrest := fun c hc htr hw hb hp => chain_rest_shape g T action c hc htr hw hb hp
  rw [hn2] at hrest
  have hdone : ∀ c2 : Context, ((httpServer.handlers g T).length : Int) ≤ c2.index →
      nextLoop (httpServer.handlers g T) n { c2 with index := c2.index + 1 } =
        Except.ok { c2 with index := c2.index + 1 } := by
    intro c2 h3
    apply nextLoop_done
    simp only
    omega
  -- a middleware result that did not call `Next`
  have hplain : ∀ c1 : Context, c1.index = 0 → c1.trace = [] → c1.Writer.written = false →
      c1.Writer.body = [] → c1.Param "action" = action →
      httpServer.normalization g
        (fun c1 => nextLoop (httpServer.handlers g T) n { c1 with index := c1.index + 1 })
        (httpServer.startContext r action) = Except.ok c1 →
      httpServer.ServeHTTP g T r action = Except.error Fault.indexOutOfRange ∨
      ∃ c, httpServer.ServeHTTP g T r action = Except.ok c ∧
        ∃ c2, c.Writer = c2.Writer.WriteHeaderNow ∧ c.trace = c2.trace ∧
          FromHandleActions action c2 := by
    intro c1 h0 htr hw hb hp h
    have hs := nextLoop_step_ok _ n _ c1 _ hlt hf h
    rw [← hn] at hs
    rcases hrest { c1 with index := c1.index + 1 } (by simp [h0]) htr hw hb hp with
      he | ⟨c2, h2, _, hfr⟩
    · exact Or.inl (ServeHTTP_error g T r action _ (hs.trans he))
    · exact Or.inr ⟨_, ServeHTTP_ok g T r action c2 (hs.trans h2), c2, rfl, rfl, hfr⟩
  -- a middleware result that called `Next`
  have hnext : ∀ c1 : Context, c1.index = 0 → c1.trace = [] → c1.Writer.written = false →
      c1.Writer.body = [] → c1.Param "action" = action →
      httpServer.normalization g
        (fun c1 => nextLoop (httpServer.handlers g T) n { c1 with index := c1.index + 1 })
        (httpServer.startContext r action) =
        nextLoop (httpServer.handlers g T) n { c1 with index := c1.index + 1 } →
      httpServer.ServeHTTP g T r action = Except.error Fault.indexOutOfRange ∨
      ∃ c, httpServer.ServeHTTP g T r action = Except.ok c ∧
        ∃ c2, c.Writer = c2.Writer.WriteHeaderNow ∧ c.trace = c2.trace ∧
          FromHandleActions action c2 := by
    intro c1 h0 htr hw hb hp h
    rcases hrest { c1 with index := c1.index + 1 } (by simp [h0]) htr hw hb hp with
      he | ⟨c2, h2, h3, hfr⟩
    · have hs := nextLoop_step_error _ n _ _ _ hlt hf (h.trans he)
      rw [← hn] at hs
      exact Or.inl (ServeHTTP_error g T r action _ hs)
    · have hs := nextLoop_step_ok _ n _ c2 _ hlt hf (h.trans h2)
      rw [← hn, hdone c2 h3] at hs
      exact Or.inr ⟨_, ServeHTTP_ok g T r action _ hs, c2, rfl, rfl, hfr⟩
  rcases normalization_cases g
    (fun c1 => nextLoop (httpServer.handlers g T) n { c1 with index := c1.index + 1 })
    (httpServer.startContext r action) with h | h | h | ⟨d, h⟩
  · exact hplain ((httpServer.startContext r action).Status 404) rfl rfl
      (by rw [written_Status]; rfl) (by rw [body_Status]; rfl) rfl h
  · exact hplain ((httpServer.startContext r action).Status 400) rfl rfl
      (by rw [written_Status]; rfl) (by rw [body_Status]; rfl) rfl h
  · exact hnext (httpServer.startContext r action) rfl rfl rfl rfl rfl h
  · exact hnext ((httpServer.startContext r action).Set "json_body" d) rfl rfl rfl rfl rfl h

/-! ## The two defects, in general -/

theorem indexChars_no_space :
    ∀ s : List Char, ' ' ∉ s → strings.indexChars [' '] s = none
  | [], _ => rfl
  | a :: s, h => by
    have ha : ¬ (' ' = a) := fun e => h (e ▸ List.mem_cons_self _ _)
    have hs : ' ' ∉ s := fun e => h (List.mem_cons_of_mem _ e)
    simp [strings.indexChars, List.isPrefixOf, ha, indexChars_no_space s hs]

/-- A non-empty `Authorization` header without a space makes the auth middleware panic. -/
theorem authMiddleware_without_space (T : String) (next : Context → Except Fault Context)
    (c : Context) (h1 : c.Request.HeaderGet "Authorization" ≠ "")
    (h2 : ' ' ∉ (c.Request.HeaderGet "Authorization").data) :
    httpServer.authMiddleware T next c = Except.error Fault.indexOutOfRange := by
  have hb : (c.Request.HeaderGet "Authorization" != "") = true := by simp [h1]
  have hs : (strings.SplitN (c.Request.HeaderGet "Authorization") " " 2).get? 1 = none := by
    have hd : " ".data = [' '] := rfl
    unfold strings.SplitN
    rw [hd]
    simp [strings.splitNChars, indexChars_no_space _ h2]
  have hr : (c.log Event.auth).Request = c.Request := rfl
  unfold httpServer.authMiddleware
  simp only [hr, hb, hs, if_true]

/-- A method other than `GET` and `POST`: the first middleware sets 404 and returns, and
the chain is not aborted. -/
theorem normalization_other_method (g : Gjson) (next : Context → Except Fault Context)
    (c : Context) (h1 : c.Request.Method ≠ "GET") (h2 : c.Request.Method ≠ "POST") :
    httpServer.normalization g next c = Except.ok (c.Status 404) ∧
    (c.Status 404).index = c.index := by
  have hb : (c.Request.Method != "GET" && c.Request.Method != "POST") = true := by
    simp [h1, h2]
  unfold httpServer.normalization
  simp only [hb, if_true]
  exact ⟨trivial, rfl⟩

/-- On a server without token, a request with a method other than `GET` and `POST` is
handed to `HandleActions`. -/
theorem ServeHTTP_other_method (g : Gjson) (r : Request) (action : String)
    (h1 : r.Method ≠ "GET") (h2 : r.Method ≠ "POST") :
    ∃ c, httpServer.ServeHTTP g "" r action = Except.ok c ∧
      Event.HandleActions ∈ c.trace := by
  have hh : httpServer.handlers g "" =
      [httpServer.normalization g, fun _ c => Except.ok (httpServer.HandleActions c)] := rfl
  have hn := (normalization_other_method g
    (fun c1 => nextLoop (httpServer.handlers g "") 1 { c1 with index := c1.index + 1 })
    (httpServer.startContext r action) h1 h2).1
  have hs := nextLoop_step_ok (httpServer.handlers g "") 1 (httpServer.startContext r action)
    _ (httpServer.normalization g) (by rw [hh]; show ((-1 : Int) + 1) < ((2 : Nat) : Int); decide) rfl hn
  have hl := chain_last (httpServer.handlers g "") 0
    { ((httpServer.startContext r action).Status 404) with
      index := ((httpServer.startContext r action).Status 404).index + 1 } 1 (by decide) rfl rfl rfl
  refine ⟨_, ServeHTTP_ok g "" r action _ (hs.trans hl), ?_⟩
  obtain ⟨evs, he⟩ := (HandleActions_frame
    { ((httpServer.startContext r action).Status 404) with
      index := ((httpServer.startContext r action).Status 404).index + 1 }).2
  show Event.HandleActions ∈ (httpServer.HandleActions _).trace
  rw [he]
  simp

/-! ## gjson `Int` and the hex encoding -/

theorem truncRat_intCast (v : Int) : truncRat (v : ℚ) = v := by
  unfold truncRat
  split <;> simp

theorem safeInt_finite (q : ℚ) (h1 : -9007199254740991 ≤ q) (h2 : q ≤ 9007199254740991) :
    safeInt (Float64.finite q) = some (truncRat q) := by
  have h : ¬ (q < -9007199254740991 ∨ q > 9007199254740991) := by
    rintro (h | h)
    · exact absurd h1 (not_le.mpr h)
    · exact absurd h2 (not_le.mpr h)
  simp only [safeInt, h, if_false]

theorem wrapInt64_step (m d : Int) :
    wrapInt64 (wrapInt64 m * 10 + d) = wrapInt64 (m * 10 + d) := by
  unfold wrapInt64
  omega

theorem wrapInt64_neg (m : Int) : wrapInt64 (wrapInt64 m * -1) = wrapInt64 (-m) := by
  unfold wrapInt64
  omega

/-- On digits `parseIntDigits` gives the denoted integer, wrapped into `int64`. -/
theorem parseIntDigits_digits :
    ∀ (ds : List Char) (m : Int), (∀ ch ∈ ds, '0' ≤ ch ∧ ch ≤ '9') →
      parseIntDigits ds (wrapInt64 m) = some (wrapInt64 (decimalValue ds m))
  | [], _, _ => rfl
  | c :: ds, m, h => by
    have hc : '0' ≤ c ∧ c ≤ '9' := h c (List.mem_cons_self _ _)
    have hds : ∀ ch ∈ ds, '0' ≤ ch ∧ ch ≤ '9' := fun ch hm => h ch (List.mem_cons_of_mem _ hm)
    simp only [parseIntDigits, hc, and_self, if_true, decimalValue]
    rw [wrapInt64_step]
    exact parseIntDigits_digits ds _ hds

/-- The `parseInt` of an integer literal: the denoted integer, wrapped into `int64`. -/
theorem parseInt_literal (s : String) (ds : List Char) (hne : ds ≠ [])
    (hd : ∀ ch ∈ ds, '0' ≤ ch ∧ ch ≤ '9') :
    (s.data = ds → parseInt s = some (wrapInt64 (decimalValue ds 0))) ∧
    (s.data = '-' :: ds → parseInt s = some (wrapInt64 (-(decimalValue ds 0)))) := by
  have h0 : wrapInt64 0 = 0 := by decide
  have hp := parseIntDigits_digits ds 0 hd
  rw [h0] at hp
  have hemp : ds.isEmpty = false := by
    cases ds with
    | nil => exact absurd rfl hne
    | cons _ _ => rfl
  constructor
  · intro hs
    unfold parseInt
    rw [hs]
    cases ds with
    | nil => exact absurd rfl hne
    | cons c t =>
      have hc : '0' ≤ c ∧ c ≤ '9' := hd c (List.mem_cons_self _ _)
      have hcm : c ≠ '-' := by
        intro e
        rw [e] at hc
        exact absurd hc (by decide)
      split
      · rename_i ds2 heq
        exact absurd (List.cons.inj heq).1 hcm
      · simp only [hemp, Bool.false_eq_true, if_false]
        exact hp
  · intro hs
    unfold parseInt
    rw [hs]
    simp only [hemp, Bool.false_eq_true, if_false, hp, Option.map_some', wrapInt64_neg]

theorem Int_of_number (t : GjsonResult) (ht : t.Typ = GjsonType.Number) :
    t.Int =
      match safeInt t.Num with
      | some i => i
      | none =>
        match parseInt t.Raw with
        | some i => i
        | none => int64OfFloat t.Num := by
  unfold GjsonResult.Int
  rw [ht]

/-- The body branch of `getParamWithType`, by the kind of the value. -/
theorem getParamWithType_of_body (c : Context) (k : String) (obj : JsonBody)
    (hq : c.Query k = "") (hm : c.Request.Method = "POST")
    (hj : strings.Contains (c.Request.HeaderGet "Content-Type") "application/json" = true)
    (hf : strings.Contains (c.Request.HeaderGet "Content-Type")
      "application/x-www-form-urlencoded" = false)
    (hbody : c.Get "json_body" = some obj) (hex : (obj.Get k).Exists = true) :
    getParamWithType c k =
      match (obj.Get k).Typ with
      | GjsonType.JSON => ((obj.Get k).Raw, GjsonType.JSON)
      | GjsonType.String => ((obj.Get k).Str, GjsonType.String)
      | GjsonType.Number => (toString (obj.Get k).Int, GjsonType.Number)
      | GjsonType.True => ("true", GjsonType.True)
      | GjsonType.False => ("false", GjsonType.False)
      | GjsonType.Null => ("", GjsonType.Null) := by
  have hb : (c.Query k != "") = false := by simp [hq]
  have hne : (c.Request.HeaderGet "Content-Type" != "") = true := by
    by_cases h0 : c.Request.HeaderGet "Content-Type" = ""
    · rw [h0] at hj
      exact absurd hj (by decide)
    · simp [h0]
  have hpost : (c.Request.Method == "POST") = true := by simp [hm]
  unfold getParamWithType
  simp only [hb, hpost, hne, hf, hj, hbody, hex, Bool.false_eq_true, if_false, if_true,
    Bool.and_true, Bool.and_false, Bool.and_self]

theorem hexValue_hexDigit : ∀ n : Nat, n < 16 → hexValue (hexDigit n) = some n := by
  decide

/-- Decoding the hex encoding gives the bytes back. -/
theorem hexDecodeChars_encode :
    ∀ bs : List Nat, hexDecodeChars (hexEncodeToString bs).data = some (bs.map (· % 256))
  | [] => rfl
  | b :: bs => by
    have h1 := hexValue_hexDigit (b / 16 % 16) (Nat.mod_lt _ (by decide))
    have h2 := hexValue_hexDigit (b % 16) (Nat.mod_lt _ (by decide))
    have ih := hexDecodeChars_encode bs
    have hv : b / 16 % 16 * 16 + b % 16 = b % 256 := by omega
    have hcons : (hexEncodeToString (b :: bs)).data =
        hexDigit (b / 16 % 16) :: hexDigit (b % 16) :: (hexEncodeToString bs).data := rfl
    rw [hcons]
    show (match hexValue (hexDigit (b / 16 % 16)), hexValue (hexDigit (b % 16)),
        hexDecodeChars (hexEncodeToString bs).data with
      | some a, some b, some bs => some ((a * 16 + b) :: bs)
      | _, _, _ => none) = _
    rw [h1, h2, ih]
    show some ((b / 16 % 16 * 16 + b % 16) :: bs.map (· % 256)) = _
    rw [hv]
    rfl

theorem hexDigit_mem : ∀ n : Nat, n < 16 → hexDigit n ∈ "0123456789abcdef".data := by
  decide

/-! ## The claims -/

/-- C1 fails on the code.  `PUT /get_login_info` on a server without token: the first
middleware sets 404 and returns without aborting, so gin goes on to `HandleActions`, the
handler calls the bot and the response is 200.  The same happens to a `POST` whose JSON
body is not valid: 400 is set, the handler still runs and answers 200. -/
theorem normalization_rejection_not_final :
    (∀ g : Gjson, outcome (httpServer.ServeHTTP g "" putRequest "get_login_info") =
      Except.ok ({ status := 200, written := true, body := [Payload.bot BotOp.CQGetLoginInfo] },
        [Event.HandleActions, Event.bot BotOp.CQGetLoginInfo])) ∧
    (∀ g : Gjson, g.ValidBytes "\x7b" = false →
      outcome (httpServer.ServeHTTP g "" badJsonRequest "get_login_info") =
        Except.ok ({ status := 200, written := true, body := [Payload.bot BotOp.CQGetLoginInfo] },
          [Event.HandleActions, Event.bot BotOp.CQGetLoginInfo])) := by
  refine ⟨fun g => rfl, fun g hg => ?_⟩
  have hn : ∀ next : Context → Except Fault Context,
      httpServer.normalization g next
        { (httpServer.newContext badJsonRequest "get_login_info") with index := 0 } =
      Except.ok (Context.Status
        { (httpServer.newContext badJsonRequest "get_login_info") with index := 0 } 400) := by
    intro next
    have h1 : (("POST" : String) != "GET" && ("POST" : String) != "POST") = false := by decide
    have h2 : (("POST" : String) == "POST" &&
        strings.Contains (badJsonRequest.HeaderGet "Content-Type") "application/json") = true := by
      decide
    unfold httpServer.normalization
    simp only [httpServer.newContext, badJsonRequest, h1, hg] at h2 ⊢
    simp only [h2]
    rfl
  have key : httpServer.ServeHTTP g "" badJsonRequest "get_login_info" =
      match (match httpServer.normalization g
          (fun c1 => nextLoop (httpServer.handlers g "") 1 { c1 with index := c1.index + 1 })
          { (httpServer.newContext badJsonRequest "get_login_info") with index := 0 } with
        | Except.error e => Except.error e
        | Except.ok c2 =>
          nextLoop (httpServer.handlers g "") 1 { c2 with index := c2.index + 1 }) with
      | Except.error e => Except.error e
      | Except.ok c1 => Except.ok { c1 with Writer := c1.Writer.WriteHeaderNow } := rfl
  rw [key, hn]
  rfl

/-- C2: with a non-empty token `T` and an `Authorization` header that is empty or contains
a space, a request on the route is served (no fault), and `HandleActions` runs if and
only if the header is non-empty and the text after its first space is `T`, or the header
is empty and the query parameter `access_token` is `T`.  When `HandleActions` does not
run the status is 401 and no bot operation is called. -/
theorem authGate_admits_iff (g : Gjson) (T : String) (r : Request) (action : String)
    (hT : T ≠ "")
    (hh : r.HeaderGet "Authorization" = "" ∨ ' ' ∈ (r.HeaderGet "Authorization").data) :
    ∃ c, httpServer.ServeHTTP g T r action = Except.ok c ∧
      (Event.HandleActions ∈ c.trace ↔
        ((r.HeaderGet "Authorization" ≠ "" ∧
            ∃ p : String, ' ' ∉ p.data ∧ r.HeaderGet "Authorization" = p ++ " " ++ T) ∨
          (r.HeaderGet "Authorization" = "" ∧
            (httpServer.newContext r action).Query "access_token" = T))) ∧
      (Event.HandleActions ∉ c.trace →
        c.Writer.status = 401 ∧ ∀ op, Event.bot op ∉ c.trace) := by
  have hlen : (httpServer.handlers g T).length = 3 := by
    rw [handlers_of_token g T hT]
    rfl
  unfold httpServer.ServeHTTP
  simp only [hlen]
  -- the context the chain starts from
  have f1 : (httpServer.startContext r action).Request = r := rfl
  have f2 : (httpServer.startContext r action).index = 0 := rfl
  have f3 : (httpServer.startContext r action).trace = [] := rfl
  have f4 : (httpServer.startContext r action).Writer.written = false := rfl
  have f5 : (httpServer.startContext r action).Request.Query =
      (httpServer.newContext r action).Request.Query := rfl
  generalize httpServer.startContext r action = c0 at f1 f2 f3 f4 f5 ⊢
  have hstep := nextLoop_step (httpServer.handlers g T) 2 c0 (httpServer.normalization g)
    (by rw [hlen, f2]; decide) (by rw [handlers_of_token g T hT, f2]; rfl)
  rw [hstep]
  -- every way out of the first middleware enters the auth stage with an untouched trace
  have key : ∀ c1 : Context, c1.Request = r → c1.index = 0 → c1.trace = [] →
      c1.Writer.written = false → c1.Request.Query =
        (httpServer.newContext r action).Request.Query →
      ∃ c2, nextLoop (httpServer.handlers g T) 2 { c1 with index := c1.index + 1 } =
          Except.ok c2 ∧ 3 ≤ c2.index ∧
        (Event.HandleActions ∈ c2.trace ↔
          ((r.HeaderGet "Authorization" ≠ "" ∧
              ∃ p : String, ' ' ∉ p.data ∧ r.HeaderGet "Authorization" = p ++ " " ++ T) ∨
            (r.HeaderGet "Authorization" = "" ∧
              (httpServer.newContext r action).Query "access_token" = T))) ∧
        (Event.HandleActions ∉ c2.trace →
          c2.Writer.status = 401 ∧ ∀ op, Event.bot op ∉ c2.trace) := by
    intro c1 hr hi htr hw hq
    have hq2 : (httpServer.newContext r action).Query "access_token" =
        ({ c1 with index := c1.index + 1 } : Context).Query "access_token" := by
      simp only [Context.Query, hq]
    rw [hq2]
    subst hr
    exact chain_auth g T hT { c1 with index := c1.index + 1 } (by simp [hi]) htr hw hh
  have hdone : ∀ c2 : Context, 3 ≤ c2.index →
      nextLoop (httpServer.handlers g T) 2 { c2 with index := c2.index + 1 } =
        Except.ok { c2 with index := c2.index + 1 } := by
    intro c2 h3
    apply nextLoop_done
    rw [hlen]
    simp only
    omega
  rcases normalization_cases g
    (fun c1 => nextLoop (httpServer.handlers g T) 2 { c1 with index := c1.index + 1 }) c0
    with h | h | h | ⟨d, h⟩
  · rw [h]
    obtain ⟨c2, h2, _, hiff, hno⟩ := key (c0.Status 404) f1 f2 f3
      (by rw [written_Status]; exact f4) f5
    refine ⟨{ c2 with Writer := c2.Writer.WriteHeaderNow }, ?_, hiff, hno⟩
    show (match nextLoop (httpServer.handlers g T) 2
        { (c0.Status 404) with index := (c0.Status 404).index + 1 } with
      | Except.error e => Except.error e
      | Except.ok c1 => Except.ok { c1 with Writer := c1.Writer.WriteHeaderNow }) = _
    rw [h2]
  · rw [h]
    obtain ⟨c2, h2, _, hiff, hno⟩ := key (c0.Status 400) f1 f2 f3
      (by rw [written_Status]; exact f4) f5
    refine ⟨{ c2 with Writer := c2.Writer.WriteHeaderNow }, ?_, hiff, hno⟩
    show (match nextLoop (httpServer.handlers g T) 2
        { (c0.Status 400) with index := (c0.Status 400).index + 1 } with
      | Except.error e => Except.error e
      | Except.ok c1 => Except.ok { c1 with Writer := c1.Writer.WriteHeaderNow }) = _
    rw [h2]
  · rw [h]
    obtain ⟨c2, h2, h3, hiff, hno⟩ := key c0 f1 f2 f3 f4 f5
    refine ⟨{ c2 with index := c2.index + 1, Writer := c2.Writer.WriteHeaderNow }, ?_, hiff, hno⟩
    show (match (match nextLoop (httpServer.handlers g T) 2
          { c0 with index := c0.index + 1 } with
        | Except.error e => Except.error e
        | Except.ok c3 => nextLoop (httpServer.handlers g T) 2 { c3 with index := c3.index + 1 })
      with
      | Except.error e => Except.error e
      | Except.ok c1 => Except.ok { c1 with Writer := c1.Writer.WriteHeaderNow }) = _
    rw [h2]
    show (match nextLoop (httpServer.handlers g T) 2 { c2 with index := c2.index + 1 } with
      | Except.error e => Except.error e
      | Except.ok c1 => Except.ok { c1 with Writer := c1.Writer.WriteHeaderNow }) = _
    rw [hdone c2 h3]
  · rw [h]
    obtain ⟨c2, h2, h3, hiff, hno⟩ := key (c0.Set "json_body" d) f1 f2 f3 f4 f5
    refine ⟨{ c2 with index := c2.index + 1, Writer := c2.Writer.WriteHeaderNow }, ?_, hiff, hno⟩
    show (match (match nextLoop (httpServer.handlers g T) 2
          { (c0.Set "json_body" d) with index := (c0.Set "json_body" d).index + 1 } with
        | Except.error e => Except.error e
        | Except.ok c3 => nextLoop (httpServer.handlers g T) 2 { c3 with index := c3.index + 1 })
      with
      | Except.error e => Except.error e
      | Except.ok c1 => Except.ok { c1 with Writer := c1.Writer.WriteHeaderNow }) = _
    rw [h2]
    show (match nextLoop (httpServer.handlers g T) 2 { c2 with index := c2.index + 1 } with
      | Except.error e => Except.error e
      | Except.ok c1 => Except.ok { c1 with Writer := c1.Writer.WriteHeaderNow }) = _
    rw [hdone c2 h3]

/-- C2 with the token `"tok"`, at a request with the header `Authorization: Bearer tok`
and at a request with the query `?access_token=tok`: both reach the handler of
`get_status`; a request with neither gets 401. -/
theorem authGate_admits_iff_witness :
    ("tok" ≠ "" ∧
      (bearerRequest.HeaderGet "Authorization" = "" ∨
        ' ' ∈ (bearerRequest.HeaderGet "Authorization").data) ∧
      (queryTokenRequest.HeaderGet "Authorization" = "" ∨
        ' ' ∈ (queryTokenRequest.HeaderGet "Authorization").data)) ∧
    (∃ c, httpServer.ServeHTTP sampleGjson "tok" bearerRequest "get_status" = Except.ok c ∧
      (Event.HandleActions ∈ c.trace ↔
        ((bearerRequest.HeaderGet "Authorization" ≠ "" ∧
            ∃ p : String, ' ' ∉ p.data ∧
              bearerRequest.HeaderGet "Authorization" = p ++ " " ++ "tok") ∨
          (bearerRequest.HeaderGet "Authorization" = "" ∧
            (httpServer.newContext bearerRequest "get_status").Query "access_token" = "tok"))) ∧
      (Event.HandleActions ∉ c.trace →
        c.Writer.status = 401 ∧ ∀ op, Event.bot op ∉ c.trace)) ∧
    (∃ c, httpServer.ServeHTTP sampleGjson "tok" queryTokenRequest "get_status" = Except.ok c ∧
      (Event.HandleActions ∈ c.trace ↔
        ((queryTokenRequest.HeaderGet "Authorization" ≠ "" ∧
            ∃ p : String, ' ' ∉ p.data ∧
              queryTokenRequest.HeaderGet "Authorization" = p ++ " " ++ "tok") ∨
          (queryTokenRequest.HeaderGet "Authorization" = "" ∧
            (httpServer.newContext queryTokenRequest "get_status").Query "access_token" =
              "tok"))) ∧
      (Event.HandleActions ∉ c.trace →
        c.Writer.status = 401 ∧ ∀ op, Event.bot op ∉ c.trace)) ∧
    outcome (httpServer.ServeHTTP sampleGjson "tok" bearerRequest "get_status") =
      Except.ok ({ status := 200, written := true, body := [Payload.bot BotOp.CQGetStatus] },
        [Event.auth, Event.HandleActions, Event.bot BotOp.CQGetStatus]) ∧
    outcome (httpServer.ServeHTTP sampleGjson "tok" queryTokenRequest "get_status") =
      Except.ok ({ status := 200, written := true, body := [Payload.bot BotOp.CQGetStatus] },
        [Event.auth, Event.HandleActions, Event.bot BotOp.CQGetStatus]) ∧
    outcome (httpServer.ServeHTTP sampleGjson "tok" getRequest "get_status") =
      Except.ok ({ status := 401, written := true, body := [] }, [Event.auth]) :=
  ⟨⟨by decide, by decide, by decide⟩,
    authGate_admits_iff sampleGjson "tok" bearerRequest "get_status" (by decide) (by decide),
    authGate_admits_iff sampleGjson "tok" queryTokenRequest "get_status" (by decide)
      (by decide),
    rfl, rfl, rfl⟩

/-- C3 fails on the code.  With the token `"tok"` and the header `Authorization: Bearer`
the split has one element and indexing its second element panics: the request gets no
outcome from the auth middleware. -/
theorem authGate_header_without_space_panics :
    strings.SplitN "Bearer" " " 2 = ["Bearer"] ∧
    ∀ g : Gjson, outcome (httpServer.ServeHTTP g "tok" bearerOnlyRequest "get_login_info") =
      Except.error Fault.indexOutOfRange :=
  ⟨by decide, fun _ => rfl⟩

/-- C4: a non-empty query value for `k` is returned as it is, with the plain tag
`gjson.Null`, whatever else the request holds. -/
theorem getParamWithType_query (c : Context) (k : String) (h : c.Query k ≠ "") :
    getParamWithType c k = (c.Query k, GjsonType.Null) := by
  have hb : (c.Query k != "") = true := by simp [h]
  unfold getParamWithType
  rw [if_pos hb]

/-- C4 at `POST /send_msg?group_id=42` with `group_id` 123 in the JSON body: the query
value wins. -/
theorem getParamWithType_query_witness :
    sendMsgContext.Query "group_id" ≠ "" ∧
    getParamWithType sendMsgContext "group_id" = ("42", GjsonType.Null) :=
  ⟨by decide, getParamWithType_query sendMsgContext "group_id" (by decide)⟩

/-- C5, as stated, fails for a number beyond `int64`: for the body
`{"user_id":9223372036854775808}` the value is `9223372036854775808`, but `Result.Int`
reads the text in `int64`, which wraps, and `getParamWithType` returns
`"-9223372036854775808"`. -/
theorem getParamWithType_number_wraps :
    bigNumberContext.Request.Method = "POST" ∧
    bigNumberContext.Query "user_id" = "" ∧
    (bigNumberBody.Get "user_id").Exists = true ∧
    (bigNumberBody.Get "user_id").Typ = GjsonType.Number ∧
    getParamWithType bigNumberContext "user_id" =
      ("-9223372036854775808", GjsonType.Number) ∧
    getParamWithType bigNumberContext "user_id" ≠
      (toString (9223372036854775808 : Int), GjsonType.Number) := by
  decide

/-- C5, amended: when the query has no non-empty value for `k`: for a `POST` with a JSON
content type and no form content type whose cached body contains `k`, the result is given
by the kind of the value: the raw text for an object or array, the string value for a
string, `"true"` and `"false"` for the booleans, each with its own tag; and for a number
the `int64` that gjson's `Result.Int` gives, in base 10, with the number tag.  That `int64`
is the number with its fraction discarded when the number lies between `-(2^53 - 1)` and
`2^53 - 1` (the number itself when it is an integer), and beyond that range it is the
`int64` reading of the raw text when that text is an integer literal: the integer the
digits denote, wrapped into `int64`.  When neither the form nor a cached body contains
`k` the result is `("", gjson.Null)`. -/
theorem getParamWithType_body (c : Context) (k : String) (hq : c.Query k = "") :
    (∀ obj : JsonBody, c.Request.Method = "POST" →
      strings.Contains (c.Request.HeaderGet "Content-Type") "application/json" = true →
      strings.Contains (c.Request.HeaderGet "Content-Type")
        "application/x-www-form-urlencoded" = false →
      c.Get "json_body" = some obj → (obj.Get k).Exists = true →
      ((obj.Get k).Typ = GjsonType.JSON →
        getParamWithType c k = ((obj.Get k).Raw, GjsonType.JSON)) ∧
      ((obj.Get k).Typ = GjsonType.String →
        getParamWithType c k = ((obj.Get k).Str, GjsonType.String)) ∧
      ((obj.Get k).Typ = GjsonType.Number →
        getParamWithType c k = (toString (obj.Get k).Int, GjsonType.Number) ∧
        (∀ q : ℚ, -9007199254740991 ≤ q → q ≤ 9007199254740991 →
          (obj.Get k).Num = Float64.finite q →
          getParamWithType c k = (toString (truncRat q), GjsonType.Number)) ∧
        (∀ v : Int, -9007199254740991 ≤ v → v ≤ 9007199254740991 →
          (obj.Get k).Num = Float64.finite v →
          getParamWithType c k = (toString v, GjsonType.Number)) ∧
        (∀ i : Int, safeInt (obj.Get k).Num = none → parseInt (obj.Get k).Raw = some i →
          getParamWithType c k = (toString i, GjsonType.Number)) ∧
        (∀ ds : List Char, ds ≠ [] → (∀ ch ∈ ds, '0' ≤ ch ∧ ch ≤ '9') →
          safeInt (obj.Get k).Num = none →
          ((obj.Get k).Raw.data = ds → getParamWithType c k =
            (toString (wrapInt64 (decimalValue ds 0)), GjsonType.Number)) ∧
          ((obj.Get k).Raw.data = '-' :: ds → getParamWithType c k =
            (toString (wrapInt64 (-(decimalValue ds 0))), GjsonType.Number)))) ∧
      ((obj.Get k).Typ = GjsonType.True →
        getParamWithType c k = ("true", GjsonType.True)) ∧
      ((obj.Get k).Typ = GjsonType.False →
        getParamWithType c k = ("false", GjsonType.False))) ∧
    (c.GetPostForm k = none →
      (∀ obj : JsonBody, c.Get "json_body" = some obj → (obj.Get k).Exists = false) →
      getParamWithType c k = ("", GjsonType.Null)) := by
  have hb : (c.Query k != "") = false := by simp [hq]
  constructor
  · intro obj hm hj hf hbody hex
    have hgen := getParamWithType_of_body c k obj hq hm hj hf hbody hex
    refine ⟨?_, ?_, ?_, ?_, ?_⟩
    · intro ht
      rw [hgen, ht]
    · intro ht
      rw [hgen, ht]
    · intro ht
      have hnum : getParamWithType c k = (toString (obj.Get k).Int, GjsonType.Number) := by
        rw [hgen, ht]
      have hq2 : ∀ q : ℚ, -9007199254740991 ≤ q → q ≤ 9007199254740991 →
          (obj.Get k).Num = Float64.finite q →
          getParamWithType c k = (toString (truncRat q), GjsonType.Number) := by
        intro q h1 h2 hn
        rw [hnum, Int_of_number _ ht, hn, safeInt_finite q h1 h2]
      have hp2 : ∀ i : Int, safeInt (obj.Get k).Num = none →
          parseInt (obj.Get k).Raw = some i →
          getParamWithType c k = (toString i, GjsonType.Number) := by
        intro i hs hp
        rw [hnum, Int_of_number _ ht, hs, hp]
      refine ⟨hnum, hq2, ?_, hp2, ?_⟩
      · intro v h1 h2 hn
        have := hq2 (v : ℚ) (by exact_mod_cast h1) (by exact_mod_cast h2) hn
        rw [truncRat_intCast] at this
        exact this
      · intro ds hne hd hs
        obtain ⟨l1, l2⟩ := parseInt_literal (obj.Get k).Raw ds hne hd
        exact ⟨fun hr => hp2 _ hs (l1 hr), fun hr => hp2 _ hs (l2 hr)⟩
    · intro ht
      rw [hgen, ht]
    · intro ht
      rw [hgen, ht]
  · intro hform hjson
    unfold getParamWithType
    simp only [hb, Bool.false_eq_true, if_false]
    have hf : (if (c.Request.Method == "POST" && c.Request.HeaderGet "Content-Type" != "" &&
          strings.Contains (c.Request.HeaderGet "Content-Type")
            "application/x-www-form-urlencoded") = true then c.GetPostForm k else none) =
        none := by
      split
      · exact hform
      · rfl
    rw [hf]
    simp only
    split
    · cases hbody : c.Get "json_body" with
      | none => rfl
      | some obj =>
        simp only [hjson obj hbody, Bool.false_eq_true, if_false]
    · rfl

/-- C5, amended, at `POST /send_msg` with the JSON body `{"group_id":123,"message":"hi"}`,
and the number case beyond the safe integers at the body
`{"user_id":9223372036854775808}`. -/
theorem getParamWithType_body_witness :
    groupMsgContext.Query "group_id" = "" ∧
    getParamWithType groupMsgContext "group_id" = ("123", GjsonType.Number) ∧
    getParamWithType groupMsgContext "message" = ("hi", GjsonType.String) ∧
    getParamWithType groupMsgContext "user_id" = ("", GjsonType.Null) ∧
    getParamWithType bigNumberContext "user_id" =
      ("-9223372036854775808", GjsonType.Number) :=
  ⟨by decide,
    ((((getParamWithType_body groupMsgContext "group_id" (by decide)).1 sampleBody
      (by decide) (by decide) (by decide) rfl (by decide)).2.2.1 (by decide)).2.2.1 123
        (by decide) (by decide) rfl).trans (by decide),
    ((getParamWithType_body groupMsgContext "message" (by decide)).1 sampleBody
      (by decide) (by decide) (by decide) rfl (by decide)).2.1 (by decide),
    (getParamWithType_body groupMsgContext "user_id" (by decide)).2 (by decide)
      (fun obj h => by
        have : obj = sampleBody := by
          have h2 : groupMsgContext.Get "json_body" = some sampleBody := rfl
          rw [h2] at h
          exact (Option.some.inj h).symm
        subst this
        decide),
    ((((getParamWithType_body bigNumberContext "user_id" (by decide)).1 bigNumberBody
      (by decide) (by decide) (by decide) rfl (by decide)).2.2.1 (by decide)).2.2.2.1
        (-9223372036854775808) (by decide) (by decide)).trans (by decide)⟩

/-- C6, as stated, fails: `"send_async_msg"` does not end in `"_async"`, so the
specification's lookup name is the action itself, but `HandleActions` looks up `"send_msg"`
(and so reaches the handler of `send_msg`). -/
theorem actionName_inner_async_removed :
    specActionName "send_async_msg" = "send_async_msg" ∧
    httpServer.actionName "send_async_msg" = "send_msg" ∧
    httpServer.actionName "send_async_msg" ≠ specActionName "send_async_msg" ∧
    (httpApi.lookup (httpServer.actionName "send_async_msg")).isSome = true := by
  decide

/-- C6, amended: `HandleActions` looks up the action with every occurrence of `"_async"`
removed, scanning from the left.  For a text `x` that does not contain `"_async"`: `x` is
looked up unchanged, `x ++ "_async"` is looked up as `x`, and `x ++ "_async" ++ y` is
looked up as `x` followed by what is looked up for `y`. -/
theorem actionName_removes_every_async (x y : String)
    (hx : strings.Contains x "_async" = false) :
    httpServer.actionName x = x ∧
    httpServer.actionName (x ++ "_async") = x ∧
    httpServer.actionName (x ++ "_async" ++ y) = x ++ httpServer.actionName y := by
  have hi : strings.indexChars strings.asyncChars x.data = none := by
    unfold strings.Contains at hx
    rw [strings.asyncChars_eq] at hx
    cases h : strings.indexChars strings.asyncChars x.data with
    | none => rfl
    | some m => rw [h] at hx; cases hx
  refine ⟨?_, ?_, ?_⟩
  · rw [actionName_eq, strings.replaceAllChars_of_index_none x.data hi]
  · rw [actionName_eq, String.data_append, strings.asyncChars_eq,
      strings.replaceAllChars_append_async x.data.length x.data (le_refl _),
      strings.replaceAllChars_of_index_none x.data hi]
  · rw [actionName_eq, String.data_append, String.data_append, strings.asyncChars_eq,
      List.append_assoc, strings.replaceAllChars_first_async y.data x.data hi]
    rfl

/-- C6, amended, at `x = "send"` and `y = "_msg_async"`. -/
theorem actionName_removes_every_async_witness :
    strings.Contains "send" "_async" = false ∧
    (httpServer.actionName "send" = "send" ∧
      httpServer.actionName ("send" ++ "_async") = "send" ∧
      httpServer.actionName ("send" ++ "_async" ++ "_msg_async") =
        "send" ++ httpServer.actionName "_msg_async") :=
  ⟨by decide, actionName_removes_every_async "send" "_msg_async" (by decide)⟩

/-- C7: for every action name `X`, `X` and `X ++ "_async"` have the same lookup name,
hence the same entry of `httpApi` (the same handler, or none for both), and
`HandleActions` gives the same result for the two requests: the contexts after the call
differ only in the route parameter they were given. -/
theorem HandleActions_async_variant (X : String) (c : Context) :
    httpServer.actionName (X ++ "_async") = httpServer.actionName X ∧
    httpApi.lookup (httpServer.actionName (X ++ "_async")) =
      httpApi.lookup (httpServer.actionName X) ∧
    httpServer.HandleActions { c with Params := [("action", X ++ "_async")] } =
      { httpServer.HandleActions { c with Params := [("action", X)] } with
        Params := [("action", X ++ "_async")] } := by
  have hk : httpServer.actionName (X ++ "_async") = httpServer.actionName X := by
    rw [actionName_eq, actionName_eq, String.data_append, strings.asyncChars_eq,
      strings.replaceAllChars_append_async X.data.length X.data (le_refl _)]
  refine ⟨hk, by rw [hk], ?_⟩
  have h1 : ∀ Y : String,
      httpServer.HandleActions { c with Params := [("action", Y)] } =
        match httpApi.lookup (httpServer.actionName Y) with
        | some f => f { (c.log Event.HandleActions) with Params := [("action", Y)] }
        | none => Context.JSON { (c.log Event.HandleActions) with Params := [("action", Y)] }
            200 (Payload.Failed 404) := by
    intro Y
    unfold httpServer.HandleActions
    simp [Context.Param, Context.log, List.lookup]
  rw [h1, h1, hk]
  cases hf : httpApi.lookup (httpServer.actionName X) with
  | none => rfl
  | some f =>
    have hpf : ParamsFree f := paramsFree_httpApi _ (lookup_mem _ _ _ hf)
    exact hpf { (c.log Event.HandleActions) with Params := [("action", X)] }
      [("action", X ++ "_async")]

/-- C8: for an action whose looked-up name is not a key of `httpApi`.  `HandleActions`,
entered before the header is written, answers status 200 with the payload
`coolq.Failed(404)` and adds only its own entry to the trace.  And whatever the token,
the method and the rest of the request, the server either panics in the auth middleware or
serves the request, and when `HandleActions` ran the response is status 200 (not 404) with
the single payload `coolq.Failed(404)` and no bot operation was called. -/
theorem HandleActions_unknown_action (action : String)
    (hk : httpApi.lookup (httpServer.actionName action) = none) :
    (∀ c : Context, c.Param "action" = action → c.Writer.written = false →
      (httpServer.HandleActions c).Writer =
        { status := 200, written := true, body := c.Writer.body ++ [Payload.Failed 404] } ∧
      (httpServer.HandleActions c).trace = c.trace ++ [Event.HandleActions]) ∧
    (∀ (g : Gjson) (T : String) (r : Request),
      httpServer.ServeHTTP g T r action = Except.error Fault.indexOutOfRange ∨
      ∃ c, httpServer.ServeHTTP g T r action = Except.ok c ∧
        (Event.HandleActions ∈ c.trace →
          c.Writer = { status := 200, written := true, body := [Payload.Failed 404] } ∧
          c.Writer.status ≠ 404 ∧ ∀ op, Event.bot op ∉ c.trace)) := by
  refine ⟨fun c hp hw => HandleActions_of_unknown c hw (by rw [hp]; exact hk), ?_⟩
  intro g T r
  rcases ServeHTTP_shape g T r action with he | ⟨c, hc, c2, hW, hT, hfrom⟩
  · exact Or.inl he
  · refine Or.inr ⟨c, hc, fun hmem => ?_⟩
    rcases hfrom with hno | ⟨c1, h1, h2, hw, hb, hp, htr⟩
    · rw [hT] at hmem
      exact absurd hmem hno
    · obtain ⟨hwr, htrace⟩ := HandleActions_of_unknown c1 hw (by rw [hp]; exact hk)
      have hcw : c.Writer = { status := 200, written := true, body := [Payload.Failed 404] } := by
        rw [hW, h1, hwr, hb]
        rfl
      refine ⟨hcw, ?_, ?_⟩
      · rw [hcw]
        show (200 : Nat) ≠ 404
        decide
      · intro op
        rw [hT, h2, htrace]
        rcases htr with h | h <;> rw [h] <;> simp

/-- C8 at the action `not_a_real_action`: what `HandleActions` answers to
`GET /not_a_real_action`. -/
theorem HandleActions_unknown_action_witness :
    httpApi.lookup (httpServer.actionName "not_a_real_action") = none ∧
    (httpServer.HandleActions (httpServer.startContext getRequest "not_a_real_action")).Writer =
      { status := 200, written := true, body := [Payload.Failed 404] } ∧
    (httpServer.HandleActions (httpServer.startContext getRequest "not_a_real_action")).trace =
      [Event.HandleActions] :=
  ⟨rfl, (HandleActions_unknown_action "not_a_real_action" rfl).1
    (httpServer.startContext getRequest "not_a_real_action") rfl rfl⟩

/-- C9: `SendMessage` calls the private-send handler when `message_type` is `"private"`
and the group-send handler when it is `"group"`, whatever `group_id` and `user_id` are;
otherwise the group-send handler when `group_id` is not empty, and else the private-send
handler when `user_id` is not empty.  In each case exactly that one handler runs: the
trace gains the one bot call of that handler. -/
theorem SendMessage_routes (c : Context) :
    (getParam c "message_type" = "private" →
      httpServer.SendMessage c = httpServer.SendPrivateMessage c ∧
      (httpServer.SendMessage c).trace = c.trace ++ [Event.bot BotOp.CQSendPrivateMessage]) ∧
    (getParam c "message_type" = "group" →
      httpServer.SendMessage c = httpServer.SendGroupMessage c ∧
      (httpServer.SendMessage c).trace = c.trace ++ [Event.bot BotOp.CQSendGroupMessage]) ∧
    (getParam c "message_type" ≠ "private" → getParam c "message_type" ≠ "group" →
      getParam c "group_id" ≠ "" →
      httpServer.SendMessage c = httpServer.SendGroupMessage c ∧
      (httpServer.SendMessage c).trace = c.trace ++ [Event.bot BotOp.CQSendGroupMessage]) ∧
    (getParam c "message_type" ≠ "private" → getParam c "message_type" ≠ "group" →
      getParam c "group_id" = "" → getParam c "user_id" ≠ "" →
      httpServer.SendMessage c = httpServer.SendPrivateMessage c ∧
      (httpServer.SendMessage c).trace = c.trace ++ [Event.bot BotOp.CQSendPrivateMessage]) := by
  have hp : (httpServer.SendPrivateMessage c).trace =
      c.trace ++ [Event.bot BotOp.CQSendPrivateMessage] := by
    rw [SendPrivateMessage_eq]
    rfl
  have hg : (httpServer.SendGroupMessage c).trace =
      c.trace ++ [Event.bot BotOp.CQSendGroupMessage] := by
    rw [SendGroupMessage_eq]
    rfl
  refine ⟨?_, ?_, ?_, ?_⟩
  · intro h1
    have e : httpServer.SendMessage c = httpServer.SendPrivateMessage c := by
      unfold httpServer.SendMessage
      simp [h1]
    exact ⟨e, by rw [e, hp]⟩
  · intro h1
    have e : httpServer.SendMessage c = httpServer.SendGroupMessage c := by
      unfold httpServer.SendMessage
      simp [h1]
    exact ⟨e, by rw [e, hg]⟩
  · intro h1 h2 h3
    have e : httpServer.SendMessage c = httpServer.SendGroupMessage c := by
      unfold httpServer.SendMessage
      simp [h1, h2, h3]
    exact ⟨e, by rw [e, hg]⟩
  · intro h1 h2 h3 h4
    have e : httpServer.SendMessage c = httpServer.SendPrivateMessage c := by
      unfold httpServer.SendMessage
      simp [h1, h2, h3, h4]
    exact ⟨e, by rw [e, hp]⟩

/-- C9 at `POST /send_msg` with the JSON body `{"group_id":123,"message":"hi"}` (no
`message_type`, a `group_id`: the group-send handler runs) and with the JSON body
`{"message_type":"private","user_id":456,"group_id":123,"message":"hi"}` (the private-send
handler runs although a `group_id` is present). -/
theorem SendMessage_routes_witness :
    (httpServer.SendMessage groupMsgContext = httpServer.SendGroupMessage groupMsgContext ∧
      (httpServer.SendMessage groupMsgContext).trace =
        [Event.bot BotOp.CQSendGroupMessage]) ∧
    (httpServer.SendMessage privateMsgContext =
        httpServer.SendPrivateMessage privateMsgContext ∧
      (httpServer.SendMessage privateMsgContext).trace =
        [Event.bot BotOp.CQSendPrivateMessage]) :=
  ⟨(SendMessage_routes groupMsgContext).2.2.1 (by decide) (by decide) (by decide),
    (SendMessage_routes privateMsgContext).1 (by decide)⟩

/-- C10: the request built by `onBotPushEvent` has an `X-Signature` header if and only if
the secret is not empty, and then its value is `"sha1="` followed by the hex encoding of
the HMAC-SHA1 digest, keyed with the secret, of the body of the request.  The hex encoding
is the lowercase one: read back as lowercase hexadecimal, two digits a byte with the high
half first, it gives the bytes of the digest; it has two digits per byte, all among
`0123456789abcdef`. -/
theorem onBotPushEvent_signature (k : Crypto) (c : httpClient) (m : MSG) :
    (((c.onBotPushEvent k m).header.lookup "X-Signature").isSome = true ↔ c.secret ≠ "") ∧
    (c.secret ≠ "" → (c.onBotPushEvent k m).header.lookup "X-Signature" =
      some ("sha1=" ++ hexEncodeToString (k.hmacSHA1 c.secret (c.onBotPushEvent k m).body))) ∧
    hexDecodeString (hexEncodeToString (k.hmacSHA1 c.secret (c.onBotPushEvent k m).body)) =
      some ((k.hmacSHA1 c.secret (c.onBotPushEvent k m).body).map (· % 256)) ∧
    (hexEncodeToString (k.hmacSHA1 c.secret (c.onBotPushEvent k m).body)).length =
      2 * (k.hmacSHA1 c.secret (c.onBotPushEvent k m).body).length ∧
    ∀ ch ∈ (hexEncodeToString (k.hmacSHA1 c.secret (c.onBotPushEvent k m).body)).data,
      ch ∈ "0123456789abcdef".data := by
  have hlen : ∀ bs : List Nat, (hexEncodeToString bs).length = 2 * bs.length := by
    intro bs
    induction bs with
    | nil => rfl
    | cons b bs ih =>
      simp only [hexEncodeToString, String.length, List.flatMap_cons, List.length_append,
        List.length_cons, List.length_nil] at ih ⊢
      omega
  have hmem : ∀ bs : List Nat, ∀ ch ∈ (hexEncodeToString bs).data,
      ch ∈ "0123456789abcdef".data := by
    intro bs ch hch
    simp only [hexEncodeToString, List.mem_flatMap, List.mem_cons, List.mem_singleton,
      List.not_mem_nil, or_false] at hch
    obtain ⟨b, _, h | h⟩ := hch
    · rw [h]
      exact hexDigit_mem _ (Nat.mod_lt _ (by decide))
    · rw [h]
      exact hexDigit_mem _ (Nat.mod_lt _ (by decide))
  refine ⟨?_, ?_, hexDecodeChars_encode _, hlen _, hmem _⟩
  · by_cases hs : c.secret = ""
    · simp [httpClient.onBotPushEvent, httpClient.pushHeader, hs, List.lookup]
    · simp [httpClient.onBotPushEvent, httpClient.pushHeader, hs, List.lookup]
  · intro hs
    simp [httpClient.onBotPushEvent, httpClient.pushHeader, hs, List.lookup]

/-- C10 at the secret `"s"` and an event serialized as `{}`, with a stand-in digest made of
the bytes of the key and of the message (`73`, `7b`, `7d`): the header is `sha1=737b7d`;
without secret there is no header; and the bytes `fa 90 bb` are encoded as `fa90bb`. -/
theorem onBotPushEvent_signature_witness :
    (signingClient.onBotPushEvent sampleCrypto sampleEvent).header.lookup "X-Signature" =
      some "sha1=737b7d" ∧
    ((plainClient.onBotPushEvent sampleCrypto sampleEvent).header.lookup
      "X-Signature").isSome = false ∧
    hexEncodeToString [250, 144, 187] = "fa90bb" ∧
    hexDecodeString "fa90bb" = some [250, 144, 187] :=
  ⟨((onBotPushEvent_signature sampleCrypto signingClient sampleEvent).2.1
      (by decide)).trans (by decide),
    Bool.eq_false_iff.mpr (fun h =>
      ((onBotPushEvent_signature sampleCrypto plainClient sampleEvent).1.mp h) rfl),
    by decide, by decide⟩
